import Mathlib

/-!
Verification of the knowledge-graph storage and reconciliation engine of the
recruiter-intelligence repository.

The development shallow-embeds the Python sources:
  * `src/knowledge_graph/graph.py`          (SQLite-backed `KnowledgeGraph`)
  * `src/knowledge_graph/entity_resolver.py` (`EntityResolver`)
  * `src/validation/cross_reference.py`      (`CrossReferencer`)
  * `scripts/migrate_to_supabase.py`         (export/migration path)

Modelling conventions:
  * Python strings are `String` (a structure over `List Char`); the char-level
    helpers mirror Python's ASCII behaviour of `str.lower`, `str.strip`,
    `str.endswith`, slicing and the regexes `[^\w\s]` / `\s+` used by the code.
  * SQLite dates (ISO-8601 `TEXT`) are modelled as `Nat` day numbers; ISO
    string comparison is order-isomorphic to the numeric one.
  * Python floats are modelled as `ℚ`; the claims proved about them are
    inequalities built from `min`/`max` and sums of non-negative terms.
  * SQLite `UNIQUE` semantics are modelled faithfully, in particular the fact
    that two `NULL`s are never equal for a uniqueness constraint, and the
    statement-level `ABORT` behaviour of a failing `UPDATE`/`INSERT`.
-/

/-! ## Char-level helpers (Python string primitives, ASCII fragment) -/

/-- Whitespace accepted by Python's `str.strip` and the regex class `\s`
(ASCII fragment): space, tab, newline, carriage return, vertical tab,
form feed. -/
def pyIsWs (c : Char) : Bool :=
  c == ' ' || c == '\t' || c == '\n' || c == '\r' || c == '\x0b' || c == '\x0c'

/-- The ASCII uppercase/lowercase pairs, used to model Python `str.lower`. -/
def upperLowerTable : List (Char × Char) :=
  [('A','a'), ('B','b'), ('C','c'), ('D','d'), ('E','e'), ('F','f'), ('G','g'),
   ('H','h'), ('I','i'), ('J','j'), ('K','k'), ('L','l'), ('M','m'), ('N','n'),
   ('O','o'), ('P','p'), ('Q','q'), ('R','r'), ('S','s'), ('T','t'), ('U','u'),
   ('V','v'), ('W','w'), ('X','x'), ('Y','y'), ('Z','z')]

/-- Python `str.lower`, per character (ASCII fragment). -/
def lowerChar (c : Char) : Char :=
  match upperLowerTable.find? (fun p => p.1 == c) with
  | some p => p.2
  | none => c

/-- Python `str.lower` on a character list. -/
def lowerL (l : List Char) : List Char := l.map lowerChar

/-- Python `str.strip` on a character list: drop whitespace on both ends. -/
def trimL (l : List Char) : List Char :=
  ((l.dropWhile pyIsWs).reverse.dropWhile pyIsWs).reverse

/-- `isPrefL s l` decides whether `s` is a prefix of `l` (element-wise `==`). -/
def isPrefL : List Char → List Char → Bool
  | [], _ => true
  | _ :: _, [] => false
  | a :: as, b :: bs => a == b && isPrefL as bs

/-- Python `str.endswith`: `s` is a suffix of `l`. -/
def endsWithL (l s : List Char) : Bool := isPrefL s.reverse l.reverse

/-- Python substring containment (`x in s`, and SQLite `LIKE '%x%'` on
lowercased operands). -/
def containsSub : List Char → List Char → Bool
  | hay, needle =>
    isPrefL needle hay ||
      match hay with
      | [] => false
      | _ :: t => containsSub t needle

/-- A character kept by `re.sub(r'[^\w\s]', '', ·)` (ASCII fragment of `\w`
plus whitespace). -/
def keepChar (c : Char) : Bool := c.isAlphanum || c == '_' || pyIsWs c

/-- `re.sub(r'\s+', ' ', ·)`: replace every maximal whitespace run by a single
space.  The boolean argument records whether the previous character was
whitespace (initially `false`). -/
def collapseWsAux : Bool → List Char → List Char
  | _, [] => []
  | prevWs, c :: cs =>
    if pyIsWs c then
      if prevWs then collapseWsAux true cs
      else ' ' :: collapseWsAux true cs
    else c :: collapseWsAux false cs

/-! ## `EntityResolver.normalize_name` (entity_resolver.py, lines 46-59) -/

/-- `EntityResolver.COMPANY_SUFFIXES`, in source order. -/
def COMPANY_SUFFIXES : List String :=
  [" Inc.", " Inc", " Corp.", " Corp", " LLC", " Ltd.", " Ltd",
   " Corporation", " Company", " Co.", " Co", " PLC", " LP", " LLP",
   " Holdings", " Group", " Technologies", " Technology", " Systems"]

/-- One step of the suffix-stripping loop body:
`if normalized.endswith(suffix.lower()): normalized = normalized[:-len(suffix)].strip()`. -/
def stripSuffixStep (n : List Char) (suffix : String) : List Char :=
  if endsWithL n (lowerL suffix.data) then trimL (n.take (n.length - suffix.data.length))
  else n

/-- `EntityResolver.normalize_name` on character lists: lowercase and strip,
run a single linear pass over `COMPANY_SUFFIXES` (no `break`: each list entry
is tested against the current, possibly already shortened, name), remove
non-word non-space characters, collapse whitespace runs, strip. -/
def normalizeNameL (name : List Char) : List Char :=
  let normalized := trimL (lowerL name)
  let normalized := COMPANY_SUFFIXES.foldl stripSuffixStep normalized
  let normalized := normalized.filter keepChar
  trimL (collapseWsAux false normalized)

/-- `EntityResolver.normalize_name`. -/
def normalize_name (name : String) : String := ⟨normalizeNameL name.data⟩

/-- The suffix stripping as the spec sentence for claim C6 reads it: remove
only the first matched list entry, then stop (a `break` after the first hit).
Modelled from the spec: `"normalize_name removes only the first matched list
entry (a single matched suffix per call)"`. -/
def normalizeNameSingleSuffixL (name : List Char) : List Char :=
  let normalized := trimL (lowerL name)
  let normalized :=
    match COMPANY_SUFFIXES.find? (fun suffix => endsWithL normalized (lowerL suffix.data)) with
    | some suffix => trimL (normalized.take (normalized.length - suffix.data.length))
    | none => normalized
  let normalized := normalized.filter keepChar
  trimL (collapseWsAux false normalized)

/-- Spec-reading of `normalize_name` for claim C6 (single suffix removed). -/
def normalize_name_single_suffix (name : String) : String :=
  ⟨normalizeNameSingleSuffixL name.data⟩

/-! ## Data model (graph.py `SCHEMA`, lines 23-92)

Rows of the five tables.  Surrogate `id` columns of `kg_aliases`, `kg_enrichment`
and `kg_tags` are omitted: no code path reads them.  Dates and timestamps are
`Nat` day numbers; `NULL`able columns are `Option`. -/

structure Entity where
  id : Nat
  name : String
  normalized_name : String
  entity_type : String
  attributes_json : Option String
  mention_count : Nat
  first_seen : Nat
  last_seen : Nat
deriving Repr, DecidableEq

structure Relationship where
  id : Nat
  subject_id : Nat
  predicate : String
  object_id : Nat
  event_date : Option Nat
  confidence : ℚ
  context : String
  source_url : String
  metadata_json : Option String
  created_at : Nat
deriving Repr, DecidableEq

/-- A `kg_aliases` row; the `alias` column is called `alias_name` here because
`alias` is a Lean keyword. -/
structure AliasRow where
  entity_id : Nat
  alias_name : String
  normalized_alias : String
deriving Repr, DecidableEq

structure EnrichmentRow where
  entity_id : Nat
  source : String
  data_json : Option String
deriving Repr, DecidableEq

structure TagRow where
  entity_id : Nat
  tag : String
deriving Repr, DecidableEq

/-- The persisted store (one SQLite database).  `next_entity_id` /
`next_rel_id` model the `AUTOINCREMENT` counters. -/
structure KG where
  entities : List Entity
  relationships : List Relationship
  aliases : List AliasRow
  enrichment : List EnrichmentRow
  tags : List TagRow
  next_entity_id : Nat
  next_rel_id : Nat
deriving Repr, DecidableEq

/-! ## `KnowledgeGraph.add_entity` (graph.py, lines 123-154) -/

/-- `name.lower().strip()`, the normalization used by `add_entity` (distinct
from the resolver's `normalize_name`). -/
def sqlNormalize (name : String) : String := ⟨trimL (lowerL name.data)⟩

/-- `SELECT id, mention_count FROM kg_entities WHERE normalized_name = ? AND
entity_type = ?` followed by `fetchone()` (first row in table order). -/
def findEntity (kg : KG) (normalized entity_type : String) : Option Entity :=
  kg.entities.find? (fun e => e.normalized_name == normalized && e.entity_type == entity_type)

/-- `SQL COALESCE(?, attributes_json)`: the incoming serialized attributes if
non-`NULL`, else the stored ones.  (The Python caller passes
`json.dumps(attributes) if attributes else None` as the parameter.) -/
def coalesceAttrs (incoming stored : Option String) : Option String :=
  match incoming with
  | some a => some a
  | none => stored

/-- The row update of `add_entity`'s found branch
(`UPDATE kg_entities SET mention_count = mention_count + 1, last_seen =
CURRENT_DATE, attributes_json = COALESCE(?, attributes_json) WHERE id = ?`),
applied to each table row. -/
def upsertTouch (today : Nat) (attributes : Option String) (target_id : Nat)
    (e : Entity) : Entity :=
  if e.id == target_id then
    { e with mention_count := e.mention_count + 1,
             last_seen := today,
             attributes_json := coalesceAttrs attributes e.attributes_json }
  else e

/-- `KnowledgeGraph.add_entity`.  `today` models `CURRENT_DATE`.  Returns the
updated store and the entity id. -/
def add_entity (today : Nat) (kg : KG) (name entity_type : String)
    (attributes : Option String) : KG × Nat :=
  let normalized := sqlNormalize name
  match findEntity kg normalized entity_type with
  | some existing =>
    ({ kg with entities := kg.entities.map (upsertTouch today attributes existing.id) },
     existing.id)
  | none =>
    ({ kg with
        entities := kg.entities ++
          [{ id := kg.next_entity_id, name := name, normalized_name := normalized,
             entity_type := entity_type, attributes_json := attributes,
             mention_count := 1, first_seen := today, last_seen := today }],
        next_entity_id := kg.next_entity_id + 1 },
     kg.next_entity_id)

/-! ## `KnowledgeGraph.add_relationship` (graph.py, lines 189-225) -/

/-- Collision test for `UNIQUE(subject_id, predicate, object_id, event_date)`.
SQLite uniqueness never fires on `NULL`: two rows whose `event_date` is `NULL`
do not conflict, so a conflict requires both dates present and equal. -/
def uniqueRelConflict (r : Relationship) (subject_id : Nat) (predicate : String)
    (object_id : Nat) (event_date : Option Nat) : Bool :=
  r.subject_id == subject_id && r.predicate == predicate && r.object_id == object_id &&
    match r.event_date, event_date with
    | some a, some b => a == b
    | _, _ => false

/-- `KnowledgeGraph.add_relationship`: upsert both endpoint entities (with
`attributes=None`), then `INSERT` the edge; an `IntegrityError` on the
uniqueness constraint returns `None`. -/
def add_relationship (today : Nat) (kg : KG)
    (subject_name subject_type predicate object_name object_type : String)
    (event_date : Option Nat) (confidence : ℚ) (context source_url : String)
    (metadata : Option String) : KG × Option Nat :=
  let sres := add_entity today kg subject_name subject_type none
  let ores := add_entity today sres.1 object_name object_type none
  let kg2 := ores.1
  if kg2.relationships.any
      (fun r => uniqueRelConflict r sres.2 predicate ores.2 event_date) then
    (kg2, none)
  else
    ({ kg2 with
        relationships := kg2.relationships ++
          [{ id := kg2.next_rel_id, subject_id := sres.2, predicate := predicate,
             object_id := ores.2, event_date := event_date, confidence := confidence,
             context := context, source_url := source_url, metadata_json := metadata,
             created_at := today }],
        next_rel_id := kg2.next_rel_id + 1 },
     some kg2.next_rel_id)

/-! ## `KnowledgeGraph.query` (graph.py, lines 227-271) -/

/-- `SELECT ... FROM kg_entities WHERE id = ?` (`fetchone`). -/
def findEntityById (kg : KG) (entity_id : Nat) : Option Entity :=
  kg.entities.find? (fun e => e.id == entity_id)

/-- A joined query row: the relationship together with its subject and object
entities (`JOIN kg_entities s ... JOIN kg_entities o ...`). -/
structure QueryRow where
  rel : Relationship
  subject : Entity
  object : Entity
deriving Repr, DecidableEq

/-- The inner joins: a relationship produces a row only when both endpoint
entities exist.  (Entity ids are unique in any store the code builds, so the
`find?` lookup is the join.) -/
def joinRow (kg : KG) (r : Relationship) : Option QueryRow :=
  match findEntityById kg r.subject_id, findEntityById kg r.object_id with
  | some s, some o => some ⟨r, s, o⟩
  | _, _ => none

/-- The optional `WHERE` conjuncts of `query`: substring match on the subject
and object normalized names (`LIKE '%·%'` with the parameter lowercased),
exact match on the predicate, and
`(r.event_date IS NULL OR r.event_date >= since_date)`. -/
def queryFilters (subject predicate obj : Option String) (since_date : Option Nat)
    (row : QueryRow) : Bool :=
  (match subject with
   | some q => containsSub row.subject.normalized_name.data (lowerL q.data)
   | none => true) &&
  (match predicate with
   | some p => row.rel.predicate == p
   | none => true) &&
  (match obj with
   | some q => containsSub row.object.normalized_name.data (lowerL q.data)
   | none => true) &&
  (match since_date with
   | some since =>
     match row.rel.event_date with
     | none => true
     | some d => since ≤ d
   | none => true)

/-- Sort rank of an `event_date`: SQLite orders `NULL` below every date, and
ISO strings in date order.  `none ↦ 0`, `some d ↦ d + 1`. -/
def dateRank : Option Nat → Nat
  | none => 0
  | some d => d + 1

/-- The comparator realising `ORDER BY r.event_date DESC, r.id DESC`:
`a` may come before `b` iff (date, id) of `a` is lexicographically ≥ that
of `b`. -/
def queryLE (a b : QueryRow) : Bool :=
  dateRank b.rel.event_date < dateRank a.rel.event_date ||
    (dateRank b.rel.event_date == dateRank a.rel.event_date && b.rel.id ≤ a.rel.id)

/-- `KnowledgeGraph.query`: join, filter, `ORDER BY event_date DESC, id DESC`,
`LIMIT`. -/
def query (kg : KG) (subject predicate obj : Option String)
    (since_date : Option Nat) (limit : Nat) : List QueryRow :=
  ((((kg.relationships.filterMap (joinRow kg)).filter
      (queryFilters subject predicate obj since_date)).mergeSort queryLE).take limit)

/-! ## `EntityResolver.merge_entities` (entity_resolver.py, lines 121-202)

The Python body runs inside `with self.kg._connection() as conn`, catches any
exception, and returns `False` from inside the `with` block; the context
manager (graph.py lines 103-111) then runs `conn.commit()` because no
exception escapes the block.  Hence a statement that fails with
`IntegrityError` mid-merge leaves every *earlier* statement's effect
committed.  A failing SQLite `UPDATE` aborts (rolls back) only that one
statement. -/

/-- Uniqueness collision between two distinct stored rows
(`UNIQUE(subject_id, predicate, object_id, event_date)`; `NULL` dates never
collide). -/
def relPairConflict (a b : Relationship) : Bool :=
  a.subject_id == b.subject_id && a.predicate == b.predicate &&
    a.object_id == b.object_id &&
    match a.event_date, b.event_date with
    | some x, some y => x == y
    | _, _ => false

/-- Whether a relationship table violates its uniqueness constraint. -/
def hasRelConflict : List Relationship → Bool
  | [] => false
  | r :: rs => rs.any (relPairConflict r) || hasRelConflict rs

/-- One SQL `UPDATE kg_relationships SET ... WHERE ...` statement with the
default `ABORT` conflict resolution: if the updated table would violate the
uniqueness constraint the statement is rolled back as a whole (`none` =
`IntegrityError`); otherwise all matching rows are updated.  (On a table that
satisfies the constraint beforehand this is exactly SQLite's incremental
check: for the repoint updates used by `merge_entities`, a conflict can only
pair an updated row with an untouched one.) -/
def sqlUpdateRels (cond : Relationship → Bool) (upd : Relationship → Relationship)
    (rels : List Relationship) : Option (List Relationship) :=
  let updated := rels.map (fun r => if cond r then upd r else r)
  if hasRelConflict updated then none else some updated

/-- Uniqueness collision for `kg_entities UNIQUE(normalized_name, entity_type)`
(both columns are `NOT NULL`). -/
def entPairConflict (a b : Entity) : Bool :=
  a.normalized_name == b.normalized_name && a.entity_type == b.entity_type

/-- Whether an entity table violates its uniqueness constraint. -/
def hasEntConflict : List Entity → Bool
  | [] => false
  | e :: es => es.any (entPairConflict e) || hasEntConflict es

/-- `EntityResolver.merge_entities`.  Returns the store as committed by the
connection context manager, and the boolean result.  The failure paths mirror
the Python control flow: a missing entity or a failing *first* statement
leaves the store unchanged, but a failure in a later statement commits all
earlier statements (the exception is swallowed and the context manager
commits). -/
def merge_entities (kg : KG) (keep_id merge_id : Nat) : KG × Bool :=
  match findEntityById kg keep_id, findEntityById kg merge_id with
  | some keep, some merge =>
    -- UPDATE kg_relationships SET subject_id = keep WHERE subject_id = merge
    match sqlUpdateRels (fun r => r.subject_id == merge_id)
        (fun r => { r with subject_id := keep_id }) kg.relationships with
    | none => (kg, false)
    | some rels1 =>
      -- UPDATE kg_relationships SET object_id = keep WHERE object_id = merge
      match sqlUpdateRels (fun r => r.object_id == merge_id)
          (fun r => { r with object_id := keep_id }) rels1 with
      | none => ({ kg with relationships := rels1 }, false)
      | some rels2 =>
        -- UPDATE kg_entities SET mention_count = keep + merge WHERE id = keep
        let entities1 := kg.entities.map (fun e =>
          if e.id == keep_id then
            { e with mention_count := keep.mention_count + merge.mention_count }
          else e)
        -- UPDATE kg_entities SET entity_type = merge.type WHERE id = keep
        -- (only when keep is 'unknown' and merge is not); this UPDATE can
        -- itself hit UNIQUE(normalized_name, entity_type)
        let typeStep : Option (List Entity) :=
          if keep.entity_type == "unknown" && merge.entity_type != "unknown" then
            let entities2 := entities1.map (fun e =>
              if e.id == keep_id then { e with entity_type := merge.entity_type } else e)
            if hasEntConflict entities2 then none else some entities2
          else some entities1
        match typeStep with
        | none => ({ kg with relationships := rels2, entities := entities1 }, false)
        | some entities2 =>
          -- UPDATE OR IGNORE kg_enrichment / kg_tags: per-row ignore on conflict
          let enrichment2 := kg.enrichment.map (fun row =>
            if row.entity_id == merge_id &&
               !(kg.enrichment.any (fun x => x.entity_id == keep_id && x.source == row.source))
            then { row with entity_id := keep_id } else row)
          let tags2 := kg.tags.map (fun row =>
            if row.entity_id == merge_id &&
               !(kg.tags.any (fun x => x.entity_id == keep_id && x.tag == row.tag))
            then { row with entity_id := keep_id } else row)
          -- INSERT OR IGNORE INTO kg_aliases (entity_id, alias, normalized_alias)
          let aliases2 :=
            if kg.aliases.any (fun a =>
                a.normalized_alias == merge.normalized_name && a.entity_id == keep_id)
            then kg.aliases
            else kg.aliases ++ [⟨keep_id, merge.name, merge.normalized_name⟩]
          -- DELETE FROM kg_entities WHERE id = merge
          let entities3 := entities2.filter (fun e => e.id != merge_id)
          ({ kg with
              entities := entities3,
              relationships := rels2,
              enrichment := enrichment2,
              tags := tags2,
              aliases := aliases2 }, true)
  | _, _ => (kg, false)

/-! ## `CrossReferencer` (validation/cross_reference.py)

`datetime`s are day numbers (`Int`, so differences are signed); amounts and
scores are `ℚ` (the Python floats `0.5/0.3/0.2/0.85/0.20` are carried as exact
rationals; every property proved below is an inequality shaped by `min`/`max`
and sums of non-negative terms).  The string-similarity ratio
(`rapidfuzz.fuzz.ratio` or `difflib.SequenceMatcher` over
`normalize_company_name`) is an external library function and is passed in as
a parameter `sim`, exactly where the source calls `self.name_similarity`. -/

structure FundingEvent where
  company_name : String
  amount : Option ℚ
  date : Int
  round_type : Option String
  source_type : String
  source_url : Option String
  confidence : ℚ
deriving Repr, DecidableEq

structure CrossRefMatch where
  news : FundingEvent
  form_d : FundingEvent
  name_similarity : ℚ
  date_diff_days : Nat
  amount_match : Bool
  combined_confidence : ℚ
deriving Repr, DecidableEq

/-- The three `CrossReferencer.__init__` parameters
(defaults `0.85`, `30`, `0.20`). -/
structure CrossReferencer where
  name_threshold : ℚ
  date_window_days : Nat
  amount_tolerance : ℚ
deriving Repr, DecidableEq

/-- `CrossReferencer.amounts_compatible`: unknown or zero amounts are always
compatible; otherwise the relative difference against the larger value must
be within tolerance. -/
def amounts_compatible (cr : CrossReferencer) (amount1 amount2 : Option ℚ) : Bool :=
  match amount1, amount2 with
  | none, _ => true
  | _, none => true
  | some a1, some a2 =>
    if a1 = 0 ∨ a2 = 0 then true
    else decide (|a1 - a2| / max a1 a2 ≤ cr.amount_tolerance)

/-- `CrossReferencer._calculate_match_score`:
`min(1.0, 0.5·name_sim + 0.3·max(0,(window−date_diff)/window) + (amount_match ? 0.2 : 0))`. -/
def calculate_match_score (cr : CrossReferencer) (name_sim : ℚ) (date_diff : Nat)
    (amount_match : Bool) : ℚ :=
  let score := name_sim * (1/2)
  let date_score : ℚ :=
    max 0 (((cr.date_window_days : ℚ) - (date_diff : ℚ)) / (cr.date_window_days : ℚ))
  let score := score + date_score * (3/10)
  let score := if amount_match then score + (1/5) else score
  min 1 score

/-- One iteration of the inner `for form_d in form_d_events` loop of
`match_news_to_form_d`: hard-filter on name similarity and date window, score
the survivor, keep it only on strict improvement over the best so far
(`best_score` starts at `0`). -/
def bestMatchStep (cr : CrossReferencer) (sim : String → String → ℚ)
    (news : FundingEvent) (best : Option CrossRefMatch)
    (form_d : FundingEvent) : Option CrossRefMatch :=
  let name_sim := sim news.company_name form_d.company_name
  if name_sim < cr.name_threshold then best
  else
    let date_diff := (news.date - form_d.date).natAbs
    if cr.date_window_days < date_diff then best
    else
      let amount_match := amounts_compatible cr news.amount form_d.amount
      let score := calculate_match_score cr name_sim date_diff amount_match
      let best_score : ℚ := match best with
        | none => 0
        | some m => m.combined_confidence
      if best_score < score then
        some ⟨news, form_d, name_sim, date_diff, amount_match, score⟩
      else best

/-- The inner loop of `match_news_to_form_d` over all Form D events. -/
def bestMatchFor (cr : CrossReferencer) (sim : String → String → ℚ)
    (news : FundingEvent) (form_d_events : List FundingEvent) : Option CrossRefMatch :=
  form_d_events.foldl (bestMatchStep cr sim news) none

/-- `CrossReferencer.match_news_to_form_d`: per news event, the greedy best
match, in news order. -/
def match_news_to_form_d (cr : CrossReferencer) (sim : String → String → ℚ)
    (news_events form_d_events : List FundingEvent) : List CrossRefMatch :=
  news_events.filterMap (fun news => bestMatchFor cr sim news form_d_events)

/-! ## Export path (scripts/migrate_to_supabase.py, lines 145-228)

Source rows are the `kg_entities` / `kg_relationships` rows (`Entity`,
`Relationship` above); destination rows model exactly the column lists of the
two `INSERT` statements.  Fresh PostgreSQL ids are modelled as `Nat`s handed
out sequentially (a stand-in for `RETURNING id`). -/

/-- Python `x or d` for a nullable string (`None` and `""` are falsy). -/
def pyOrStr (x : Option String) (d : String) : String :=
  match x with
  | some s => if s == "" then d else s
  | none => d

/-- Python `x or d` for a number (`0` is falsy). -/
def pyOrNat (x d : Nat) : Nat := if x == 0 then d else x

/-- Python `x or d` for a float (`0.0` is falsy). -/
def pyOrQ (x d : ℚ) : ℚ := if x = 0 then d else x

/-- The `INSERT INTO entities (...)` column list of `migrate_entities`. -/
structure PgEntityRow where
  id : Nat
  name : String
  normalized_name : String
  entity_type : String
  attributes : String
  first_seen_at : Nat
  last_seen_at : Nat
  mention_count : Nat
deriving Repr, DecidableEq

/-- The `INSERT INTO relationships (...)` column list of
`migrate_relationships`.  Note: the `SELECT` (lines 189-193) does not read
`event_date` or `metadata_json`, and the `INSERT` (lines 208-212) has no
column for them, so this row type has no such fields. -/
structure PgRelRow where
  subject_id : Nat
  predicate : String
  object_id : Nat
  context : String
  source_url : String
  confidence : ℚ
  created_at : Nat
deriving Repr, DecidableEq

/-- `migrate_entities`: copy every entity row, remember `old id ↦ new id`.
`next_id` models the sequence of fresh destination ids. -/
def migrate_entities : List Entity → Nat → List PgEntityRow × List (Nat × Nat)
  | [], _ => ([], [])
  | e :: rest, next_id =>
    let row : PgEntityRow :=
      { id := next_id, name := e.name, normalized_name := e.normalized_name,
        entity_type := e.entity_type,
        attributes := pyOrStr e.attributes_json "\x7b\x7d",
        first_seen_at := e.first_seen, last_seen_at := e.last_seen,
        mention_count := pyOrNat e.mention_count 1 }
    let tail := migrate_entities rest (next_id + 1)
    (row :: tail.1, (e.id, next_id) :: tail.2)

/-- `entity_id_mapping.get(old_id)` (entity ids are unique in the source, so
first-match lookup equals dict lookup). -/
def lookupId (mapping : List (Nat × Nat)) (old_id : Nat) : Option Nat :=
  (mapping.find? (fun p => p.1 == old_id)).map (fun p => p.2)

/-- `migrate_relationships`: for each source relationship, map both endpoint
ids; if either is unmapped, skip and count; otherwise emit the destination
row (`confidence or 0.8`).  Returns the emitted rows and the skipped count. -/
def migrate_relationships (mapping : List (Nat × Nat)) :
    List Relationship → List PgRelRow × Nat
  | [] => ([], 0)
  | rel :: rest =>
    let tail := migrate_relationships mapping rest
    match lookupId mapping rel.subject_id, lookupId mapping rel.object_id with
    | some su, some ou =>
      ({ subject_id := su, predicate := rel.predicate, object_id := ou,
         context := rel.context, source_url := rel.source_url,
         confidence := pyOrQ rel.confidence (4/5),
         created_at := rel.created_at } :: tail.1, tail.2)
    | _, _ => (tail.1, tail.2 + 1)

/-! ## Concrete stores and rows used by evaluation theorems and witnesses -/

/-- A freshly initialised store (`_init_schema` on a new database). -/
def emptyKG : KG := ⟨[], [], [], [], [], 1, 1⟩

/-- A store holding one `Google` company entity with stored attributes. -/
def kgGoogle : KG :=
  ⟨[⟨1, "Google", "google", "company", some "\x7bold\x7d", 1, 0, 0⟩],
   [], [], [], [], 2, 1⟩

/-- Store for the merge-atomicity evaluation: `Keep Co` (id 1), `Lose Co`
(id 2), `Third` (id 3); `Lose Co` is the subject of one edge and the object
of another, and `Third` already has the same `FUNDED_BY` edge to both
`Keep Co` and `Lose Co` on the same date, so repointing the object side
collides with the uniqueness constraint. -/
def kgMerge : KG :=
  ⟨[⟨1, "Keep Co", "keep co", "company", none, 2, 0, 0⟩,
    ⟨2, "Lose Co", "lose co", "company", none, 1, 0, 0⟩,
    ⟨3, "Third", "third", "company", none, 1, 0, 0⟩],
   [⟨1, 2, "ACQUIRED", 3, some 10, 9/10, "", "", none, 0⟩,
    ⟨2, 3, "FUNDED_BY", 1, some 10, 9/10, "", "", none, 0⟩,
    ⟨3, 3, "FUNDED_BY", 2, some 10, 9/10, "", "", none, 0⟩],
   [], [], [], 4, 4⟩

/-- Two source relationship rows that differ only in `event_date` and
`metadata_json`. -/
def relWithDate : Relationship :=
  ⟨1, 1, "ACQUIRED", 2, some 5, 9/10, "ctx", "http://a", some "\x7bamount\x7d", 7⟩

/-- Same as `relWithDate` but undated and without metadata. -/
def relNoDate : Relationship :=
  ⟨1, 1, "ACQUIRED", 2, none, 9/10, "ctx", "http://a", none, 7⟩

/-- Id mapping used in the migration counterexample. -/
def mappingCE : List (Nat × Nat) := [(1, 100), (2, 200)]

/-! ## Claim C1 (code bug): merge atomicity -/

/-- C1: the spec demands that a `merge_entities` call returning `false` leaves
the store exactly as it was ("This must be atomic — partial application ...
is a correctness failure").  The code violates this: on `kgMerge`,
`merge_entities 1 2` repoints the subject of the first relationship from the
losing entity to the kept one, then the object-side `UPDATE` hits the
`UNIQUE(subject_id, predicate, object_id, event_date)` constraint; the
exception is swallowed, `False` is returned, and the connection context
manager commits the half-applied merge.  This theorem evaluates the model at
that failing input: the call returns `false`, yet the persisted relationship
table differs from the pre-call one (subject ids `[2,3,3]` became `[1,3,3]`)
and the losing entity still exists. -/
theorem C1_merge_not_atomic :
    (merge_entities kgMerge 1 2).2 = false ∧
    kgMerge.relationships.map (fun r => r.subject_id) = [2, 3, 3] ∧
    (merge_entities kgMerge 1 2).1.relationships.map (fun r => r.subject_id) = [1, 3, 3] ∧
    (findEntityById (merge_entities kgMerge 1 2).1 2).isSome = true := by
  decide

/-! ## Claim C2: relationship idempotence — counterexample for `NULL` dates -/

/-- C2 counterexample: the claim quantifies over *every*
`(subject, predicate, object, event_date)` tuple, but SQLite uniqueness never
fires on `NULL`, so inserting the identical *undated* tuple twice stores two
edge rows and the second call returns a fresh id instead of `None`. -/
theorem C2_counterexample_null_date :
    (add_relationship 0
       (add_relationship 0 emptyKG "Google" "company" "ACQUIRED" "Fitbit" "company"
          none (9/10) "" "" none).1
       "Google" "company" "ACQUIRED" "Fitbit" "company" none (9/10) "" "" none).2
      = some 2 ∧
    ((add_relationship 0
       (add_relationship 0 emptyKG "Google" "company" "ACQUIRED" "Fitbit" "company"
          none (9/10) "" "" none).1
       "Google" "company" "ACQUIRED" "Fitbit" "company" none (9/10) "" "" none).1).relationships.length = 2 := by
  decide

/-! ## Claim C4: attribute merge policy — counterexample -/

/-- C4 counterexample: the claim says re-upserting with a non-null attributes
map *keeps* the stored attributes.  The code runs
`attributes_json = COALESCE(?, attributes_json)` with the incoming value
first, so a non-null incoming map *replaces* the stored one. -/
theorem C4_counterexample_incoming_wins :
    (add_entity 5 kgGoogle "Google" "company" (some "\x7bnew\x7d")).1.entities.map
        (fun e => e.attributes_json) = [some "\x7bnew\x7d"] ∧
    some "\x7bnew\x7d" ≠ some "\x7bold\x7d" := by
  decide

/-! ## Claim C5: normalization idempotence — counterexample -/

/-- C5 counterexample: `normalize_name` is not idempotent.  The single linear
pass over `COMPANY_SUFFIXES` strips `" Technologies"` from
`"x inc technologies"` giving `"x inc"`, but `" Inc"` was already checked
earlier in the pass, so a second call strips it to `"x"`. -/
theorem C5_counterexample_not_idempotent :
    normalize_name "x inc technologies" = "x inc" ∧
    normalize_name (normalize_name "x inc technologies") = "x" ∧
    normalize_name (normalize_name "x inc technologies")
      ≠ normalize_name "x inc technologies" := by
  decide

/-! ## Claim C6: only one suffix removed per call — counterexample -/

/-- C6 counterexample: on `"acme technologies inc"` the loop first strips the
earlier list entry `" Inc"`, then — because there is no `break` — also strips
`" Technologies"` in the same pass, yielding `"acme"`; the claim's reading
(only the first matched list entry removed) would yield
`"acme technologies"`. -/
theorem C6_counterexample_two_suffixes :
    normalize_name "acme technologies inc" = "acme" ∧
    normalize_name_single_suffix "acme technologies inc" = "acme technologies" ∧
    normalize_name "acme technologies inc"
      ≠ normalize_name_single_suffix "acme technologies inc" := by
  decide

/-! ## Claim C9: lossless export — counterexample -/

/-- C9 counterexample: `migrate_relationships` reads neither `event_date` nor
`metadata_json`, so two source rows that differ only in those fields migrate
to identical destination rows — the export is not lossless. -/
theorem C9_counterexample_drops_fields :
    migrate_relationships mappingCE [relWithDate]
      = migrate_relationships mappingCE [relNoDate] ∧
    relWithDate.event_date ≠ relNoDate.event_date ∧
    relWithDate.metadata_json ≠ relNoDate.metadata_json :=
  ⟨rfl, by decide, by decide⟩

/-! ## Entity-table invariant and helper lemmas -/

/-- The entity-table invariant every store built by the code satisfies:
row ids are pairwise distinct, `UNIQUE(normalized_name, entity_type)` holds,
and every id is below the autoincrement counter. -/
def EntTableOk (kg : KG) : Prop :=
  kg.entities.Pairwise (fun a b => a.id ≠ b.id) ∧
  kg.entities.Pairwise
    (fun a b => ¬(a.normalized_name = b.normalized_name ∧ a.entity_type = b.entity_type)) ∧
  ∀ e ∈ kg.entities, e.id < kg.next_entity_id

theorem findq_ext {α : Type} {p q : α → Bool} (h : ∀ a, p a = q a) :
    ∀ l : List α, l.find? p = l.find? q := by
  intro l
  induction l with
  | nil => rfl
  | cons a t ih =>
    rw [List.find?_cons, List.find?_cons, ← h a]
    cases p a
    · exact ih
    · rfl

theorem upsertTouch_id (today : Nat) (attrs : Option String) (tid : Nat) (e : Entity) :
    (upsertTouch today attrs tid e).id = e.id := by
  unfold upsertTouch
  split <;> rfl

theorem upsertTouch_keys (today : Nat) (attrs : Option String) (tid : Nat) (e : Entity) :
    (upsertTouch today attrs tid e).normalized_name = e.normalized_name ∧
    (upsertTouch today attrs tid e).entity_type = e.entity_type := by
  unfold upsertTouch
  split <;> exact ⟨rfl, rfl⟩

theorem upsertTouch_self (today : Nat) (attrs : Option String) (e : Entity) :
    upsertTouch today attrs e.id e =
      { e with mention_count := e.mention_count + 1,
               last_seen := today,
               attributes_json := coalesceAttrs attrs e.attributes_json } := by
  unfold upsertTouch
  simp

theorem upsertTouch_other (today : Nat) (attrs : Option String) (tid : Nat)
    (e : Entity) (h : e.id ≠ tid) : upsertTouch today attrs tid e = e := by
  unfold upsertTouch
  simp [h]

/-- `find?` by id commutes with mapping an id-preserving row update. -/
theorem find_id_map (l : List Entity) (g : Entity → Entity)
    (hg : ∀ x, (g x).id = x.id) (i : Nat) :
    (l.map g).find? (fun e => e.id == i) = (l.find? (fun e => e.id == i)).map g := by
  rw [List.find?_map]
  exact congrArg (Option.map g) (findq_ext (fun x => by simp [Function.comp, hg x]) l)

/-- `find?` by `(normalized_name, entity_type)` commutes with mapping a
key-preserving row update. -/
theorem find_key_map (l : List Entity) (g : Entity → Entity)
    (hg : ∀ x, (g x).normalized_name = x.normalized_name ∧ (g x).entity_type = x.entity_type)
    (k t : String) :
    (l.map g).find? (fun e => e.normalized_name == k && e.entity_type == t) =
      (l.find? (fun e => e.normalized_name == k && e.entity_type == t)).map g := by
  rw [List.find?_map]
  exact congrArg (Option.map g)
    (findq_ext (fun x => by simp [Function.comp, (hg x).1, (hg x).2]) l)

/-- In a table with pairwise-distinct ids, `find?` by a member's id returns
exactly that member. -/
theorem find_id_of_mem {l : List Entity}
    (hnd : l.Pairwise (fun a b => a.id ≠ b.id)) {e : Entity} (he : e ∈ l) :
    l.find? (fun x => x.id == e.id) = some e := by
  induction l with
  | nil => cases he
  | cons a t ih =>
    rcases List.mem_cons.mp he with rfl | hmem
    · simp [List.find?_cons]
    · have hne : a.id ≠ e.id := (List.pairwise_cons.mp hnd).1 e hmem
      rw [List.find?_cons]
      have : (a.id == e.id) = false := by simp [hne]
      rw [this]
      exact ih (List.pairwise_cons.mp hnd).2 hmem

/-- Distinct members of a table with pairwise-distinct ids have distinct ids. -/
theorem mem_ne_id {l : List Entity} (hnd : l.Pairwise (fun a b => a.id ≠ b.id))
    {a b : Entity} (ha : a ∈ l) (hb : b ∈ l) (hne : a ≠ b) : a.id ≠ b.id := by
  induction l with
  | nil => cases ha
  | cons x t ih =>
    rcases List.mem_cons.mp ha with rfl | ha' <;> rcases List.mem_cons.mp hb with rfl | hb'
    · exact absurd rfl hne
    · exact (List.pairwise_cons.mp hnd).1 b hb'
    · exact fun h => (List.pairwise_cons.mp hnd).1 a ha' h.symm
    · exact ih (List.pairwise_cons.mp hnd).2 ha' hb'

/-- Anatomy of `add_entity` when the `(normalized_name, entity_type)` key is
already present: the table is mapped through `upsertTouch` and the existing
id is returned. -/
theorem add_entity_found_eq (today : Nat) (kg : KG) (name etype : String)
    (attrs : Option String) {e : Entity}
    (h : findEntity kg (sqlNormalize name) etype = some e) :
    add_entity today kg name etype attrs =
      ({ kg with entities := kg.entities.map (upsertTouch today attrs e.id) }, e.id) := by
  simp only [add_entity, h]

/-- Anatomy of `add_entity` when the key is absent: a fresh row is appended. -/
theorem add_entity_none_eq (today : Nat) (kg : KG) (name etype : String)
    (attrs : Option String)
    (h : findEntity kg (sqlNormalize name) etype = none) :
    add_entity today kg name etype attrs =
      ({ kg with
          entities := kg.entities ++
            [{ id := kg.next_entity_id, name := name,
               normalized_name := sqlNormalize name, entity_type := etype,
               attributes_json := attrs, mention_count := 1,
               first_seen := today, last_seen := today }],
          next_entity_id := kg.next_entity_id + 1 },
       kg.next_entity_id) := by
  simp only [add_entity, h]

/-- `mention_count` of the row with a given id (`None` when absent). -/
def mentionOf (kg : KG) (i : Nat) : Option Nat :=
  (findEntityById kg i).map (fun e => e.mention_count)

/-- `last_seen` of the row with a given id. -/
def lastSeenOf (kg : KG) (i : Nat) : Option Nat :=
  (findEntityById kg i).map (fun e => e.last_seen)

/-- `attributes_json` of the row with a given id. -/
def attrsOf (kg : KG) (i : Nat) : Option (Option String) :=
  (findEntityById kg i).map (fun e => e.attributes_json)

/-! ## Claim C3: entity uniqueness and monotone mention counting -/

/-- C3: for every `(name, entity_type)` pair at most one entity row exists
(the `EntTableOk` invariant is preserved by `add_entity`); re-upserting an
existing `(name, type)` never creates a second row, returns the existing
row's id, and increases exactly that row's `mention_count` by one; a first
upsert creates the row with `mention_count = 1`. -/
theorem C3_entity_uniqueness_and_mention_count (today : Nat) (kg : KG)
    (name etype : String) (attrs : Option String) (h : EntTableOk kg) :
    EntTableOk (add_entity today kg name etype attrs).1 ∧
    (∀ e, findEntity kg (sqlNormalize name) etype = some e →
      (add_entity today kg name etype attrs).2 = e.id ∧
      (add_entity today kg name etype attrs).1.entities.length = kg.entities.length ∧
      mentionOf (add_entity today kg name etype attrs).1 e.id = some (e.mention_count + 1)) ∧
    (findEntity kg (sqlNormalize name) etype = none →
      (add_entity today kg name etype attrs).1.entities.length = kg.entities.length + 1 ∧
      (add_entity today kg name etype attrs).2 = kg.next_entity_id ∧
      mentionOf (add_entity today kg name etype attrs).1 kg.next_entity_id = some 1) := by
  obtain ⟨hids, hkeys, hbound⟩ := h
  rcases hfind : findEntity kg (sqlNormalize name) etype with _ | e
  · -- key absent: fresh row appended
    rw [add_entity_none_eq today kg name etype attrs hfind]
    refine ⟨⟨?_, ?_, ?_⟩, ?_, ?_⟩
    · rw [List.pairwise_append]
      refine ⟨hids, List.pairwise_singleton _ _, ?_⟩
      intro a ha b hb
      rcases List.mem_singleton.mp hb with rfl
      exact Nat.ne_of_lt (hbound a ha)
    · rw [List.pairwise_append]
      refine ⟨hkeys, List.pairwise_singleton _ _, ?_⟩
      intro a ha b hb
      rcases List.mem_singleton.mp hb with rfl
      have hpred := List.find?_eq_none.mp hfind a ha
      simp only [findEntity] at hpred ⊢
      intro hcontra
      exact hpred (by simp [hcontra.1, hcontra.2])
    · intro x hx
      rcases List.mem_append.mp hx with hx' | hx'
      · exact Nat.lt_succ_of_lt (hbound x hx')
      · rcases List.mem_singleton.mp hx' with rfl
        exact Nat.lt_succ_self _
    · intro e he
      cases he
    · intro _
      refine ⟨by simp, rfl, ?_⟩
      unfold mentionOf findEntityById
      rw [List.find?_append]
      have hnone : kg.entities.find? (fun x => x.id == kg.next_entity_id) = none := by
        rw [List.find?_eq_none]
        intro x hx
        simp [Nat.ne_of_lt (hbound x hx)]
      rw [hnone]
      simp [List.find?_cons]
  · -- key present: table mapped through upsertTouch
    have hmem : e ∈ kg.entities := List.mem_of_find?_eq_some hfind
    rw [add_entity_found_eq today kg name etype attrs hfind]
    have hfound : (kg.entities.map (upsertTouch today attrs e.id)).find?
        (fun x => x.id == e.id) = some (upsertTouch today attrs e.id e) := by
      rw [find_id_map _ _ (upsertTouch_id today attrs e.id), find_id_of_mem hids hmem]
      rfl
    refine ⟨⟨?_, ?_, ?_⟩, ?_, ?_⟩
    · rw [List.pairwise_map]
      exact hids.imp (fun {a b} hab => by
        simpa [upsertTouch_id] using hab)
    · rw [List.pairwise_map]
      exact hkeys.imp (fun {a b} hab => by
        simpa [(upsertTouch_keys today attrs e.id a).1, (upsertTouch_keys today attrs e.id a).2,
               (upsertTouch_keys today attrs e.id b).1, (upsertTouch_keys today attrs e.id b).2]
          using hab)
    · intro x hx
      rcases List.mem_map.mp hx with ⟨y, hy, rfl⟩
      simpa [upsertTouch_id] using hbound y hy
    · intro e' he'
      cases he'
      refine ⟨rfl, by simp, ?_⟩
      unfold mentionOf findEntityById
      simp only
      rw [hfound, upsertTouch_self]
      rfl
    · intro hnone
      cases hnone

/-- C3 witness: on the concrete one-row store `kgGoogle`, re-upserting
`("Google", company)` keeps a single row, returns id 1 and bumps the count
to 2, and the invariant is preserved. -/
theorem C3_witness :
    EntTableOk (add_entity 3 kgGoogle "Google" "company" none).1 ∧
    (add_entity 3 kgGoogle "Google" "company" none).2 = 1 ∧
    (add_entity 3 kgGoogle "Google" "company" none).1.entities.length = 1 ∧
    mentionOf (add_entity 3 kgGoogle "Google" "company" none).1 1 = some 2 := by
  have h := C3_entity_uniqueness_and_mention_count 3 kgGoogle "Google" "company" none
    (by refine ⟨?_, ?_, ?_⟩ <;> decide)
  have hf : findEntity kgGoogle (sqlNormalize "Google") "company"
      = some ⟨1, "Google", "google", "company", some "\x7bold\x7d", 1, 0, 0⟩ := by decide
  obtain ⟨h1, h2, -⟩ := h
  obtain ⟨ha, hb, hc⟩ := h2 _ hf
  exact ⟨h1, ha, by simpa using hb, by simpa using hc⟩

/-! ## Claim C4 (amended): attribute merge prefers the incoming value -/

/-- C4 amended: `add_entity` on an existing `(name, type)` runs
`attributes_json = COALESCE(?, attributes_json)` with the *incoming* value
first, so the merge policy is prefer-incoming-unless-null: a non-null
incoming attributes map replaces the stored one, and the stored attributes
survive only when the incoming value is null. -/
theorem C4_amended_attribute_merge (today : Nat) (kg : KG) (name etype : String)
    (attrs : Option String) (e : Entity)
    (hids : kg.entities.Pairwise (fun a b => a.id ≠ b.id))
    (h : findEntity kg (sqlNormalize name) etype = some e) :
    attrsOf (add_entity today kg name etype attrs).1 e.id
      = some (coalesceAttrs attrs e.attributes_json) ∧
    (∀ a, attrs = some a →
      attrsOf (add_entity today kg name etype attrs).1 e.id = some (some a)) ∧
    (attrs = none →
      attrsOf (add_entity today kg name etype attrs).1 e.id = some e.attributes_json) := by
  have hmem : e ∈ kg.entities := List.mem_of_find?_eq_some h
  rw [add_entity_found_eq today kg name etype attrs h]
  have hfound : (kg.entities.map (upsertTouch today attrs e.id)).find?
      (fun x => x.id == e.id) = some (upsertTouch today attrs e.id e) := by
    rw [find_id_map _ _ (upsertTouch_id today attrs e.id), find_id_of_mem hids hmem]
    rfl
  have hbase : attrsOf ({ kg with
      entities := kg.entities.map (upsertTouch today attrs e.id) }) e.id
      = some (coalesceAttrs attrs e.attributes_json) := by
    unfold attrsOf findEntityById
    simp only
    rw [hfound, upsertTouch_self]
    rfl
  refine ⟨hbase, ?_, ?_⟩
  · intro a ha
    rw [hbase, ha]
    rfl
  · intro ha
    rw [hbase, ha]
    rfl

/-- C4 witness: on `kgGoogle` (stored attributes present), upserting with a
non-null incoming attributes value replaces the stored attributes. -/
theorem C4_witness :
    attrsOf (add_entity 5 kgGoogle "Google" "company" (some "\x7bnew\x7d")).1 1
      = some (some "\x7bnew\x7d") := by
  have h := C4_amended_attribute_merge 5 kgGoogle "Google" "company"
    (some "\x7bnew\x7d") ⟨1, "Google", "google", "company", some "\x7bold\x7d", 1, 0, 0⟩
    (by decide) (by decide)
  exact h.2.1 _ rfl

/-! ## Anatomy of `add_relationship` -/

theorem add_entity_relationships (today : Nat) (kg : KG) (n t : String)
    (a : Option String) : (add_entity today kg n t a).1.relationships = kg.relationships := by
  rcases hfind : findEntity kg (sqlNormalize n) t with _ | e
  · rw [add_entity_none_eq _ _ _ _ _ hfind]
  · rw [add_entity_found_eq _ _ _ _ _ hfind]

theorem add_entity_next_rel (today : Nat) (kg : KG) (n t : String)
    (a : Option String) : (add_entity today kg n t a).1.next_rel_id = kg.next_rel_id := by
  rcases hfind : findEntity kg (sqlNormalize n) t with _ | e
  · rw [add_entity_none_eq _ _ _ _ _ hfind]
  · rw [add_entity_found_eq _ _ _ _ _ hfind]

theorem findEntity_eq_of_entities {kg kg' : KG} (h : kg.entities = kg'.entities)
    (k t : String) : findEntity kg k t = findEntity kg' k t := by
  unfold findEntity
  rw [h]

/-- After `add_entity`, the upserted `(normalized_name, entity_type)` key is
present and carries the returned id. -/
theorem add_entity_find_self (today : Nat) (kg : KG) (n t : String) (a : Option String) :
    ∃ e', findEntity (add_entity today kg n t a).1 (sqlNormalize n) t = some e' ∧
      e'.id = (add_entity today kg n t a).2 := by
  rcases hfind : findEntity kg (sqlNormalize n) t with _ | e
  · rw [add_entity_none_eq _ _ _ _ _ hfind]
    refine ⟨{ id := kg.next_entity_id, name := n, normalized_name := sqlNormalize n,
              entity_type := t, attributes_json := a, mention_count := 1,
              first_seen := today, last_seen := today }, ?_, rfl⟩
    unfold findEntity at hfind ⊢
    simp only
    rw [List.find?_append, hfind]
    simp [List.find?_cons]
  · rw [add_entity_found_eq _ _ _ _ _ hfind]
    refine ⟨upsertTouch today a e.id e, ?_, ?_⟩
    · unfold findEntity at hfind ⊢
      simp only
      rw [find_key_map _ _ (upsertTouch_keys today a e.id), hfind]
      rfl
    · exact upsertTouch_id today a e.id e

/-- `add_entity` never loses an existing key, and keeps its row id. -/
theorem add_entity_find_pres (today : Nat) (kg : KG) (n t : String) (a : Option String)
    (k ty : String) (e : Entity) (h : findEntity kg k ty = some e) :
    ∃ e', findEntity (add_entity today kg n t a).1 k ty = some e' ∧ e'.id = e.id := by
  rcases hfind : findEntity kg (sqlNormalize n) t with _ | e0
  · rw [add_entity_none_eq _ _ _ _ _ hfind]
    refine ⟨e, ?_, rfl⟩
    unfold findEntity at h ⊢
    simp only
    rw [List.find?_append, h]
    rfl
  · rw [add_entity_found_eq _ _ _ _ _ hfind]
    refine ⟨upsertTouch today a e0.id e, ?_, upsertTouch_id today a e0.id e⟩
    unfold findEntity at h ⊢
    simp only
    rw [find_key_map _ _ (upsertTouch_keys today a e0.id), h]
    rfl

theorem add_relationship_entities (today : Nat) (kg : KG) (sn st p objn ot : String)
    (d : Option Nat) (conf : ℚ) (ctx url : String) (md : Option String) :
    (add_relationship today kg sn st p objn ot d conf ctx url md).1.entities =
      (add_entity today (add_entity today kg sn st none).1 objn ot none).1.entities := by
  simp only [add_relationship]
  split <;> rfl

/-- Duplicate branch of `add_relationship`: when the computed
`(subject_id, predicate, object_id, event_date)` key collides with a stored
row, the call returns `None` and the relationship table is untouched. -/
theorem add_relationship_dup_case (today : Nat) (kg : KG) (sn st p objn ot : String)
    (d : Option Nat) (conf : ℚ) (ctx url : String) (md : Option String)
    (hdup : ∃ r ∈ kg.relationships,
      uniqueRelConflict r (add_entity today kg sn st none).2 p
        (add_entity today (add_entity today kg sn st none).1 objn ot none).2 d = true) :
    (add_relationship today kg sn st p objn ot d conf ctx url md).2 = none ∧
    (add_relationship today kg sn st p objn ot d conf ctx url md).1.relationships
      = kg.relationships := by
  have hrels : (add_entity today (add_entity today kg sn st none).1 objn ot none).1.relationships
      = kg.relationships := by
    rw [add_entity_relationships, add_entity_relationships]
  have hcond : ((add_entity today (add_entity today kg sn st none).1 objn ot none).1.relationships.any
      (fun r => uniqueRelConflict r (add_entity today kg sn st none).2 p
        (add_entity today (add_entity today kg sn st none).1 objn ot none).2 d)) = true := by
    rw [hrels]
    exact List.any_eq_true.mpr hdup
  simp only [add_relationship, hcond, if_true]
  exact ⟨trivial, hrels⟩

/-- Insert branch of `add_relationship`: with no key collision, a single new
edge row is appended and its fresh id returned. -/
theorem add_relationship_insert_case (today : Nat) (kg : KG) (sn st p objn ot : String)
    (d : Option Nat) (conf : ℚ) (ctx url : String) (md : Option String)
    (hnodup : ∀ r ∈ kg.relationships,
      uniqueRelConflict r (add_entity today kg sn st none).2 p
        (add_entity today (add_entity today kg sn st none).1 objn ot none).2 d = false) :
    (add_relationship today kg sn st p objn ot d conf ctx url md).2 = some kg.next_rel_id ∧
    (add_relationship today kg sn st p objn ot d conf ctx url md).1.relationships =
      kg.relationships ++
        [{ id := kg.next_rel_id,
           subject_id := (add_entity today kg sn st none).2, predicate := p,
           object_id := (add_entity today (add_entity today kg sn st none).1 objn ot none).2,
           event_date := d, confidence := conf, context := ctx, source_url := url,
           metadata_json := md, created_at := today }] := by
  have hrels : (add_entity today (add_entity today kg sn st none).1 objn ot none).1.relationships
      = kg.relationships := by
    rw [add_entity_relationships, add_entity_relationships]
  have hnext : (add_entity today (add_entity today kg sn st none).1 objn ot none).1.next_rel_id
      = kg.next_rel_id := by
    rw [add_entity_next_rel, add_entity_next_rel]
  have hcond : ((add_entity today (add_entity today kg sn st none).1 objn ot none).1.relationships.any
      (fun r => uniqueRelConflict r (add_entity today kg sn st none).2 p
        (add_entity today (add_entity today kg sn st none).1 objn ot none).2 d)) = false := by
    rw [hrels]
    exact List.any_eq_false.mpr (by
      intro r hr
      simp [hnodup r hr])
  simp only [add_relationship, hcond, if_false, Bool.false_eq_true]
  exact ⟨by rw [hnext], by rw [hrels, hnext]⟩

/-! ## Claim C10 (implicit): a duplicate relationship insert still mutates the entities -/

/-- C10: when the `(subject, predicate, object, event_date)` tuple already
exists, `add_relationship` returns `None` and leaves the relationship table
unchanged, but both endpoint entities were already upserted first: each
existing endpoint row's `mention_count` is incremented and its `last_seen`
refreshed even though no new edge is stored. -/
theorem C10_duplicate_insert_still_mutates_entities
    (today : Nat) (kg : KG) (sn st p objn ot : String) (d : Option Nat)
    (conf : ℚ) (ctx url : String) (md : Option String)
    (hids : kg.entities.Pairwise (fun a b => a.id ≠ b.id))
    (es eo : Entity)
    (hs : findEntity kg (sqlNormalize sn) st = some es)
    (ho : findEntity kg (sqlNormalize objn) ot = some eo)
    (hne : es ≠ eo)
    (hdup : ∃ r ∈ kg.relationships, uniqueRelConflict r es.id p eo.id d = true) :
    (add_relationship today kg sn st p objn ot d conf ctx url md).2 = none ∧
    (add_relationship today kg sn st p objn ot d conf ctx url md).1.relationships
      = kg.relationships ∧
    mentionOf (add_relationship today kg sn st p objn ot d conf ctx url md).1 es.id
      = some (es.mention_count + 1) ∧
    mentionOf (add_relationship today kg sn st p objn ot d conf ctx url md).1 eo.id
      = some (eo.mention_count + 1) ∧
    lastSeenOf (add_relationship today kg sn st p objn ot d conf ctx url md).1 es.id
      = some today ∧
    lastSeenOf (add_relationship today kg sn st p objn ot d conf ctx url md).1 eo.id
      = some today := by
  have hmem_s : es ∈ kg.entities := List.mem_of_find?_eq_some hs
  have hmem_o : eo ∈ kg.entities := List.mem_of_find?_eq_some ho
  have hneid : es.id ≠ eo.id := mem_ne_id hids hmem_s hmem_o hne
  have hA : add_entity today kg sn st none
      = ({ kg with entities := kg.entities.map (upsertTouch today none es.id) }, es.id) :=
    add_entity_found_eq today kg sn st none hs
  have hoA : findEntity (add_entity today kg sn st none).1 (sqlNormalize objn) ot
      = some eo := by
    rw [hA]
    unfold findEntity at ho ⊢
    simp only
    rw [find_key_map _ _ (upsertTouch_keys today none es.id), ho]
    simp [upsertTouch_other today none es.id eo (Ne.symm hneid)]
  have hB : add_entity today (add_entity today kg sn st none).1 objn ot none
      = ({ (add_entity today kg sn st none).1 with
            entities := (add_entity today kg sn st none).1.entities.map
              (upsertTouch today none eo.id) },
         eo.id) :=
    add_entity_found_eq today _ objn ot none hoA
  have hsid : (add_entity today kg sn st none).2 = es.id := by rw [hA]
  have hoid : (add_entity today (add_entity today kg sn st none).1 objn ot none).2
      = eo.id := by rw [hB]
  have hdup' : ∃ r ∈ kg.relationships,
      uniqueRelConflict r (add_entity today kg sn st none).2 p
        (add_entity today (add_entity today kg sn st none).1 objn ot none).2 d = true := by
    rw [hsid, hoid]
    exact hdup
  obtain ⟨hret, hrels⟩ := add_relationship_dup_case today kg sn st p objn ot d conf ctx url md hdup'
  have hent : (add_relationship today kg sn st p objn ot d conf ctx url md).1.entities
      = (kg.entities.map (upsertTouch today none es.id)).map (upsertTouch today none eo.id) := by
    rw [add_relationship_entities, hB, hA]
  have hes : findEntityById (add_relationship today kg sn st p objn ot d conf ctx url md).1 es.id
      = some (upsertTouch today none eo.id (upsertTouch today none es.id es)) := by
    unfold findEntityById
    rw [hent, find_id_map _ _ (upsertTouch_id today none eo.id),
        find_id_map _ _ (upsertTouch_id today none es.id), find_id_of_mem hids hmem_s]
    rfl
  have heo : findEntityById (add_relationship today kg sn st p objn ot d conf ctx url md).1 eo.id
      = some (upsertTouch today none eo.id (upsertTouch today none es.id eo)) := by
    unfold findEntityById
    rw [hent, find_id_map _ _ (upsertTouch_id today none eo.id),
        find_id_map _ _ (upsertTouch_id today none es.id), find_id_of_mem hids hmem_o]
    rfl
  have hes' : upsertTouch today none eo.id (upsertTouch today none es.id es)
      = { es with mention_count := es.mention_count + 1, last_seen := today,
                  attributes_json := coalesceAttrs none es.attributes_json } := by
    rw [upsertTouch_self]
    exact upsertTouch_other today none eo.id _ hneid
  have heo' : upsertTouch today none eo.id (upsertTouch today none es.id eo)
      = { eo with mention_count := eo.mention_count + 1, last_seen := today,
                  attributes_json := coalesceAttrs none eo.attributes_json } := by
    rw [upsertTouch_other today none es.id eo (Ne.symm hneid), upsertTouch_self]
  refine ⟨hret, hrels, ?_, ?_, ?_, ?_⟩
  · unfold mentionOf
    rw [hes, hes']
    rfl
  · unfold mentionOf
    rw [heo, heo']
    rfl
  · unfold lastSeenOf
    rw [hes, hes']
    rfl
  · unfold lastSeenOf
    rw [heo, heo']
    rfl

/-- Store for the C10 witness: two company entities and the edge
`(Google) ACQUIRED (Fitbit)` dated day 3 already present. -/
def kgDup : KG :=
  ⟨[⟨1, "Google", "google", "company", none, 1, 0, 0⟩,
    ⟨2, "Fitbit", "fitbit", "company", none, 1, 0, 0⟩],
   [⟨1, 1, "ACQUIRED", 2, some 3, 9/10, "", "", none, 0⟩],
   [], [], [], 3, 2⟩

/-- C10 witness: re-inserting the stored tuple on `kgDup` returns `None` yet
both endpoint mention counts go from 1 to 2 and `last_seen` moves to day 9. -/
theorem C10_witness :
    (add_relationship 9 kgDup "Google" "company" "ACQUIRED" "Fitbit" "company"
      (some 3) (1/2) "" "" none).2 = none ∧
    mentionOf (add_relationship 9 kgDup "Google" "company" "ACQUIRED" "Fitbit" "company"
      (some 3) (1/2) "" "" none).1 1 = some 2 ∧
    mentionOf (add_relationship 9 kgDup "Google" "company" "ACQUIRED" "Fitbit" "company"
      (some 3) (1/2) "" "" none).1 2 = some 2 ∧
    lastSeenOf (add_relationship 9 kgDup "Google" "company" "ACQUIRED" "Fitbit" "company"
      (some 3) (1/2) "" "" none).1 1 = some 9 := by
  have h := C10_duplicate_insert_still_mutates_entities 9 kgDup "Google" "company"
    "ACQUIRED" "Fitbit" "company" (some 3) (1/2) "" "" none (by decide)
    ⟨1, "Google", "google", "company", none, 1, 0, 0⟩
    ⟨2, "Fitbit", "fitbit", "company", none, 1, 0, 0⟩
    (by decide) (by decide) (by decide)
    ⟨⟨1, 1, "ACQUIRED", 2, some 3, 9/10, "", "", none, 0⟩, List.mem_cons_self _ _, by decide⟩
  exact ⟨h.1, h.2.2.1, h.2.2.2.1, h.2.2.2.2.1⟩

/-! ## Claim C2 (amended): relationship idempotence for dated tuples -/

/-- C2 amended: for every tuple whose `event_date` is *non-null*, inserting
the identical `(subject, predicate, object, event_date)` tuple twice returns
`None` on the second call and leaves the edge table exactly as the first call
left it; starting from an empty relationship table, the first call stores
exactly one edge row.  (For a null `event_date` the claim fails: SQLite
uniqueness never fires on `NULL` — see the counterexample.) -/
theorem C2_amended_relationship_idempotent_dated
    (today today2 : Nat) (kg : KG) (sn st p objn ot : String) (d : Nat)
    (conf conf2 : ℚ) (ctx ctx2 url url2 : String) (md md2 : Option String) :
    (add_relationship today2
        (add_relationship today kg sn st p objn ot (some d) conf ctx url md).1
        sn st p objn ot (some d) conf2 ctx2 url2 md2).2 = none ∧
    (add_relationship today2
        (add_relationship today kg sn st p objn ot (some d) conf ctx url md).1
        sn st p objn ot (some d) conf2 ctx2 url2 md2).1.relationships
      = (add_relationship today kg sn st p objn ot (some d) conf ctx url md).1.relationships ∧
    (kg.relationships = [] →
      (add_relationship today kg sn st p objn ot (some d) conf ctx url md).1.relationships.length
        = 1) := by
  classical
  -- after the first call, some stored row carries the computed unique key
  have hconf_exists : ∃ r ∈ (add_relationship today kg sn st p objn ot (some d) conf ctx url md).1.relationships,
      uniqueRelConflict r (add_entity today kg sn st none).2 p
        (add_entity today (add_entity today kg sn st none).1 objn ot none).2 (some d) = true := by
    by_cases hdup : ∃ r ∈ kg.relationships,
        uniqueRelConflict r (add_entity today kg sn st none).2 p
          (add_entity today (add_entity today kg sn st none).1 objn ot none).2 (some d) = true
    · obtain ⟨-, hrel⟩ :=
        add_relationship_dup_case today kg sn st p objn ot (some d) conf ctx url md hdup
      rw [hrel]
      exact hdup
    · have hnodup : ∀ r ∈ kg.relationships,
          uniqueRelConflict r (add_entity today kg sn st none).2 p
            (add_entity today (add_entity today kg sn st none).1 objn ot none).2 (some d) = false := by
        intro r hr
        by_contra hc
        exact hdup ⟨r, hr, by simpa using hc⟩
      obtain ⟨-, hrel⟩ :=
        add_relationship_insert_case today kg sn st p objn ot (some d) conf ctx url md hnodup
      rw [hrel]
      refine ⟨_, List.mem_append_right _ (List.mem_singleton.mpr rfl), ?_⟩
      simp [uniqueRelConflict]
  -- both entity keys keep their ids across the first call
  obtain ⟨e1, he1, hid1⟩ := add_entity_find_self today kg sn st none
  obtain ⟨e2, he2, hid2⟩ :=
    add_entity_find_pres today (add_entity today kg sn st none).1 objn ot none _ _ _ he1
  obtain ⟨f1, hf1, hfid1⟩ :=
    add_entity_find_self today (add_entity today kg sn st none).1 objn ot none
  have hFent : (add_relationship today kg sn st p objn ot (some d) conf ctx url md).1.entities
      = (add_entity today (add_entity today kg sn st none).1 objn ot none).1.entities :=
    add_relationship_entities today kg sn st p objn ot (some d) conf ctx url md
  have hFs : findEntity (add_relationship today kg sn st p objn ot (some d) conf ctx url md).1
      (sqlNormalize sn) st = some e2 := by
    rw [findEntity_eq_of_entities hFent]
    exact he2
  have hFo : findEntity (add_relationship today kg sn st p objn ot (some d) conf ctx url md).1
      (sqlNormalize objn) ot = some f1 := by
    rw [findEntity_eq_of_entities hFent]
    exact hf1
  -- the second call computes the same subject id ...
  have hA2 := add_entity_found_eq today2
    (add_relationship today kg sn st p objn ot (some d) conf ctx url md).1 sn st none hFs
  have hsid2 : (add_entity today2
      (add_relationship today kg sn st p objn ot (some d) conf ctx url md).1 sn st none).2
      = (add_entity today kg sn st none).2 := by
    rw [hA2]
    exact hid2.trans hid1
  -- ... and the same object id
  obtain ⟨f2, hf2, hfid2⟩ := add_entity_find_pres today2
    (add_relationship today kg sn st p objn ot (some d) conf ctx url md).1 sn st none _ _ _ hFo
  have hB2 := add_entity_found_eq today2
    (add_entity today2 (add_relationship today kg sn st p objn ot (some d) conf ctx url md).1
      sn st none).1 objn ot none hf2
  have hoid2 : (add_entity today2
      (add_entity today2 (add_relationship today kg sn st p objn ot (some d) conf ctx url md).1
        sn st none).1 objn ot none).2
      = (add_entity today (add_entity today kg sn st none).1 objn ot none).2 := by
    rw [hB2]
    exact hfid2.trans hfid1
  -- hence the second call hits the duplicate branch
  have hdup2 : ∃ r ∈ (add_relationship today kg sn st p objn ot (some d) conf ctx url md).1.relationships,
      uniqueRelConflict r
        (add_entity today2
          (add_relationship today kg sn st p objn ot (some d) conf ctx url md).1 sn st none).2 p
        (add_entity today2
          (add_entity today2 (add_relationship today kg sn st p objn ot (some d) conf ctx url md).1
            sn st none).1 objn ot none).2 (some d) = true := by
    rw [hsid2, hoid2]
    exact hconf_exists
  obtain ⟨hret2, hrel2⟩ := add_relationship_dup_case today2
    (add_relationship today kg sn st p objn ot (some d) conf ctx url md).1
    sn st p objn ot (some d) conf2 ctx2 url2 md2 hdup2
  refine ⟨hret2, hrel2, ?_⟩
  intro hempty
  have hnodup : ∀ r ∈ kg.relationships,
      uniqueRelConflict r (add_entity today kg sn st none).2 p
        (add_entity today (add_entity today kg sn st none).1 objn ot none).2 (some d) = false := by
    rw [hempty]
    intro r hr
    cases hr
  obtain ⟨-, hrel⟩ :=
    add_relationship_insert_case today kg sn st p objn ot (some d) conf ctx url md hnodup
  rw [hrel, hempty]
  rfl

/-- C2 witness: two identical dated inserts on the empty store — the second
returns `None`, the table keeps exactly one row. -/
theorem C2_witness :
    (add_relationship 1
        (add_relationship 0 emptyKG "Google" "company" "ACQUIRED" "Fitbit" "company"
          (some 100) (9/10) "" "" none).1
        "Google" "company" "ACQUIRED" "Fitbit" "company" (some 100) (8/10) "" "" none).2
      = none ∧
    (add_relationship 0 emptyKG "Google" "company" "ACQUIRED" "Fitbit" "company"
      (some 100) (9/10) "" "" none).1.relationships.length = 1 := by
  have h := C2_amended_relationship_idempotent_dated 0 1 emptyKG "Google" "company"
    "ACQUIRED" "Fitbit" "company" 100 (9/10) (8/10) "" "" "" "" none none
  exact ⟨h.1, h.2.2 rfl⟩

/-! ## Claim C7: cross-reference bounds and hard filters -/

/-- The invariant carried by every stored `CrossRefMatch`. -/
def matchOk (cr : CrossReferencer) (m : CrossRefMatch) : Prop :=
  0 ≤ m.combined_confidence ∧ m.combined_confidence ≤ 1 ∧
  cr.name_threshold ≤ m.name_similarity ∧ m.date_diff_days ≤ cr.date_window_days

theorem calculate_match_score_bounds (cr : CrossReferencer) (name_sim : ℚ)
    (date_diff : Nat) (amount_match : Bool) (h : 0 ≤ name_sim) :
    0 ≤ calculate_match_score cr name_sim date_diff amount_match ∧
    calculate_match_score cr name_sim date_diff amount_match ≤ 1 := by
  unfold calculate_match_score
  refine ⟨le_min (by norm_num) ?_, min_le_left _ _⟩
  have h0 : (0:ℚ) ≤ name_sim * (1/2) := by positivity
  have h1 : (0:ℚ) ≤
      max 0 (((cr.date_window_days : ℚ) - (date_diff : ℚ)) / (cr.date_window_days : ℚ)) :=
    le_max_left _ _
  split <;> nlinarith

theorem bestMatchStep_ok (cr : CrossReferencer) (sim : String → String → ℚ)
    (news form_d : FundingEvent) (hth : 0 ≤ cr.name_threshold)
    (acc : Option CrossRefMatch) (hacc : ∀ m, acc = some m → matchOk cr m) :
    ∀ m, bestMatchStep cr sim news acc form_d = some m → matchOk cr m := by
  intro m hm
  simp only [bestMatchStep] at hm
  split at hm
  · exact hacc m hm
  · rename_i hns
    split at hm
    · exact hacc m hm
    · rename_i hdd
      split at hm
      · cases hm
        have hsim : cr.name_threshold ≤ sim news.company_name form_d.company_name :=
          le_of_not_lt hns
        have hbounds := calculate_match_score_bounds cr
          (sim news.company_name form_d.company_name)
          ((news.date - form_d.date).natAbs)
          (amounts_compatible cr news.amount form_d.amount)
          (le_trans hth hsim)
        exact ⟨hbounds.1, hbounds.2, hsim, le_of_not_lt hdd⟩
      · exact hacc m hm

theorem bestMatchFor_ok (cr : CrossReferencer) (sim : String → String → ℚ)
    (news : FundingEvent) (hth : 0 ≤ cr.name_threshold) :
    ∀ (fds : List FundingEvent) (acc : Option CrossRefMatch),
      (∀ m, acc = some m → matchOk cr m) →
      ∀ m, fds.foldl (bestMatchStep cr sim news) acc = some m → matchOk cr m := by
  intro fds
  induction fds with
  | nil => intro acc hacc m hm; exact hacc m hm
  | cons fd rest ih =>
    intro acc hacc m hm
    exact ih _ (bestMatchStep_ok cr sim news fd hth acc hacc) m hm

/-- C7: every match returned by `match_news_to_form_d` has
`combined_confidence ∈ [0,1]`, name similarity at or above the configured
threshold, and date difference within the configured window; and amount
incompatibility never excludes a candidate — any Form D event passing the two
hard filters yields a match, whatever `amounts_compatible` says. -/
theorem C7_cross_reference_bounds (cr : CrossReferencer) (sim : String → String → ℚ)
    (news_events form_d_events : List FundingEvent) (hth : 0 ≤ cr.name_threshold) :
    (∀ m ∈ match_news_to_form_d cr sim news_events form_d_events,
      0 ≤ m.combined_confidence ∧ m.combined_confidence ≤ 1 ∧
      cr.name_threshold ≤ m.name_similarity ∧
      m.date_diff_days ≤ cr.date_window_days) ∧
    (∀ news form_d, 0 < cr.name_threshold →
      cr.name_threshold ≤ sim news.company_name form_d.company_name →
      (news.date - form_d.date).natAbs ≤ cr.date_window_days →
      (bestMatchFor cr sim news [form_d]).isSome = true) := by
  constructor
  · intro m hm
    rcases List.mem_filterMap.mp hm with ⟨news, -, hbest⟩
    exact bestMatchFor_ok cr sim news hth form_d_events none (by intro m' h'; cases h') m hbest
  · intro news form_d hpos hsim hdd
    unfold bestMatchFor
    simp only [List.foldl, bestMatchStep]
    rw [if_neg (not_lt.mpr hsim), if_neg (not_lt.mpr hdd)]
    have hscore : (0:ℚ) < calculate_match_score cr
        (sim news.company_name form_d.company_name)
        ((news.date - form_d.date).natAbs)
        (amounts_compatible cr news.amount form_d.amount) := by
      unfold calculate_match_score
      have h0 : (0:ℚ) < sim news.company_name form_d.company_name * (1/2) := by
        nlinarith
      have h1 : (0:ℚ) ≤
          max 0 (((cr.date_window_days : ℚ) - (((news.date - form_d.date).natAbs : Nat) : ℚ))
            / (cr.date_window_days : ℚ)) := le_max_left _ _
      refine lt_min (by norm_num) ?_
      split <;> nlinarith
    rw [if_pos hscore]
    rfl

/-- The default `CrossReferencer` configuration (`0.85`, `30`, `0.20`). -/
def crDefault : CrossReferencer := ⟨85/100, 30, 20/100⟩

/-- A constant similarity function used by the C7 witness. -/
def simW : String → String → ℚ := fun _ _ => 9/10

/-- A news funding event for the C7 witness. -/
def newsW : FundingEvent := ⟨"Acme Corp", some 10000000, 0, none, "news", none, 8/10⟩

/-- A Form D funding event (amount incompatible with `newsW`) for the C7
witness. -/
def formdW : FundingEvent := ⟨"Acme Corporation", some 99000000, 9, none, "form_d", none, 95/100⟩

/-- C7 witness: with the default configuration and an amount-incompatible but
name- and date-compatible pair, a match is still produced. -/
theorem C7_witness : (bestMatchFor crDefault simW newsW [formdW]).isSome = true :=
  (C7_cross_reference_bounds crDefault simW [newsW] [formdW] (by norm_num [crDefault])).2
    newsW formdW (by norm_num [crDefault]) (by norm_num [crDefault, simW, newsW, formdW])
    (by norm_num [crDefault, newsW, formdW])

/-! ## Claim C8: since-filter and ordering of `query` -/

theorem joinRow_rel {kg : KG} {r : Relationship} {row : QueryRow}
    (h : joinRow kg r = some row) : row.rel = r := by
  unfold joinRow at h
  split at h
  · cases h
    rfl
  · cases h

theorem queryLE_trans (a b c : QueryRow) (hab : queryLE a b = true)
    (hbc : queryLE b c = true) : queryLE a c = true := by
  simp only [queryLE, Bool.or_eq_true, Bool.and_eq_true, decide_eq_true_eq,
    beq_iff_eq] at hab hbc ⊢
  omega

theorem queryLE_total (a b : QueryRow) : (queryLE a b || queryLE b a) = true := by
  simp only [queryLE, Bool.or_eq_true, Bool.and_eq_true, decide_eq_true_eq, beq_iff_eq]
  omega

/-- C8: with a `since_date`, every returned row is an edge of the store whose
`event_date` is null or at least `since`; results are pairwise ordered by
`(event_date, id)` descending (`NULL` below every date, as SQLite orders it);
and when the filtered row count fits in the limit the result is exactly the
set of joined rows passing the filter. -/
theorem C8_query_since_filter_and_order (kg : KG) (since : Nat) (limit : Nat) :
    (∀ row ∈ query kg none none none (some since) limit,
      (row.rel.event_date = none ∨ ∃ dd, row.rel.event_date = some dd ∧ since ≤ dd) ∧
      row.rel ∈ kg.relationships) ∧
    (query kg none none none (some since) limit).Pairwise (fun a b => queryLE a b = true) ∧
    (((kg.relationships.filterMap (joinRow kg)).filter
        (queryFilters none none none (some since))).length ≤ limit →
      ∀ row, row ∈ query kg none none none (some since) limit ↔
        (∃ r ∈ kg.relationships, joinRow kg r = some row) ∧
          queryFilters none none none (some since) row = true) := by
  have hperm := List.mergeSort_perm
    ((kg.relationships.filterMap (joinRow kg)).filter
      (queryFilters none none none (some since))) queryLE
  refine ⟨?_, ?_, ?_⟩
  · intro row hrow
    unfold query at hrow
    have h1 := List.take_subset _ _ hrow
    have h2 := hperm.mem_iff.mp h1
    obtain ⟨h3, h4⟩ := List.mem_filter.mp h2
    obtain ⟨r, hr, hjoin⟩ := List.mem_filterMap.mp h3
    refine ⟨?_, (joinRow_rel hjoin) ▸ hr⟩
    simp only [queryFilters, Bool.and_eq_true] at h4
    rcases hdate : row.rel.event_date with _ | dd
    · exact Or.inl rfl
    · rw [hdate] at h4
      exact Or.inr ⟨dd, rfl, by simpa using h4⟩
  · unfold query
    exact List.Pairwise.sublist (List.take_sublist _ _)
      (List.sorted_mergeSort queryLE_trans queryLE_total _)
  · intro hlen row
    unfold query
    rw [List.take_of_length_le (by rw [hperm.length_eq]; exact hlen)]
    rw [hperm.mem_iff, List.mem_filter, List.mem_filterMap]

/-- Store for the C8 witness: two entities, two dated edges (days 10 and 3)
and one undated edge. -/
def kgQ : KG :=
  ⟨[⟨1, "A", "a", "company", none, 1, 0, 0⟩, ⟨2, "B", "b", "company", none, 1, 0, 0⟩],
   [⟨1, 1, "ACQUIRED", 2, some 10, 0, "", "", none, 0⟩,
    ⟨2, 1, "ACQUIRED", 2, some 3, 0, "", "", none, 1⟩,
    ⟨3, 1, "HIRED_BY", 2, none, 0, "", "", none, 2⟩],
   [], [], [], 3, 4⟩

/-- The joined undated row of `kgQ`. -/
def rowW : QueryRow :=
  ⟨⟨3, 1, "HIRED_BY", 2, none, 0, "", "", none, 2⟩,
   ⟨1, "A", "a", "company", none, 1, 0, 0⟩,
   ⟨2, "B", "b", "company", none, 1, 0, 0⟩⟩

/-- C8 witness: on `kgQ` with `since = 5` the undated row is returned exactly
when it joins and passes the filter (it is never excluded by the recency
window). -/
theorem C8_witness :
    rowW ∈ query kgQ none none none (some 5) 10 ↔
      (∃ r ∈ kgQ.relationships, joinRow kgQ r = some rowW) ∧
        queryFilters none none none (some 5) rowW = true :=
  (C8_query_since_filter_and_order kgQ 5 10).2.2 (by decide) rowW

/-! ## Claim C9 (amended): what the export path carries -/

theorem migrate_entities_carries : ∀ (ents : List Entity) (start : Nat),
    ents.Pairwise (fun a b => a.id ≠ b.id) →
    ∀ e ∈ ents, ∃ n, lookupId (migrate_entities ents start).2 e.id = some n ∧
      ({ id := n, name := e.name, normalized_name := e.normalized_name,
         entity_type := e.entity_type,
         attributes := pyOrStr e.attributes_json "\x7b\x7d",
         first_seen_at := e.first_seen, last_seen_at := e.last_seen,
         mention_count := pyOrNat e.mention_count 1 } : PgEntityRow)
        ∈ (migrate_entities ents start).1 := by
  intro ents
  induction ents with
  | nil =>
    intro start _ e he
    cases he
  | cons e0 rest ih =>
    intro start hp e he
    rcases List.mem_cons.mp he with rfl | hmem
    · refine ⟨start, ?_, ?_⟩
      · unfold lookupId
        simp only [migrate_entities, List.find?_cons]
        simp
      · simp only [migrate_entities]
        exact List.mem_cons_self _ _
    · have hne : e0.id ≠ e.id := (List.pairwise_cons.mp hp).1 e hmem
      obtain ⟨n, hn, hrow⟩ := ih (start + 1) (List.pairwise_cons.mp hp).2 e hmem
      refine ⟨n, ?_, ?_⟩
      · unfold lookupId at hn ⊢
        simp only [migrate_entities, List.find?_cons]
        have hb : (e0.id == e.id) = false := by simp [hne]
        simp only [hb]
        exact hn
      · simp only [migrate_entities]
        exact List.mem_cons_of_mem _ hrow

theorem migrate_relationships_count (mapping : List (Nat × Nat)) :
    ∀ rels : List Relationship,
      (migrate_relationships mapping rels).1.length
        + (migrate_relationships mapping rels).2 = rels.length := by
  intro rels
  induction rels with
  | nil => rfl
  | cons r rest ih =>
    simp only [migrate_relationships]
    split
    · simp only [List.length_cons]
      omega
    · simp only [List.length_cons]
      omega

theorem migrate_relationships_out (mapping : List (Nat × Nat)) :
    ∀ rels : List Relationship, ∀ out ∈ (migrate_relationships mapping rels).1,
      ∃ rel ∈ rels, lookupId mapping rel.subject_id = some out.subject_id ∧
        lookupId mapping rel.object_id = some out.object_id ∧
        out.predicate = rel.predicate ∧ out.context = rel.context ∧
        out.source_url = rel.source_url ∧ out.confidence = pyOrQ rel.confidence (4/5) ∧
        out.created_at = rel.created_at := by
  intro rels
  induction rels with
  | nil =>
    intro out hout
    cases hout
  | cons r rest ih =>
    intro out hout
    simp only [migrate_relationships] at hout
    split at hout
    · rename_i su ou hsu hou2
      rcases List.mem_cons.mp hout with rfl | hmem
      · exact ⟨r, List.mem_cons_self _ _, by rw [hsu], by rw [hou2], rfl, rfl, rfl, rfl, rfl⟩
      · obtain ⟨rel, hrel, hrest⟩ := ih out hmem
        exact ⟨rel, List.mem_cons_of_mem _ hrel, hrest⟩
    · obtain ⟨rel, hrel, hrest⟩ := ih out hout
      exact ⟨rel, List.mem_cons_of_mem _ hrel, hrest⟩

/-- C9 amended: `migrate_entities` carries every `kg_entities` field (with
the `or`-defaults of the code) and maps each old id to the new row's id;
`migrate_relationships` emits one destination row per source row whose two
endpoints are mapped — pointing exactly at the mapped ids, with predicate,
context, source_url, confidence (`or 0.8`) and created_at carried — and every
other source row is dropped and counted, never miswired.  `event_date` and
`metadata_json` are not carried (see the counterexample). -/
theorem C9_amended_migration (ents : List Entity) (start : Nat)
    (hids : ents.Pairwise (fun a b => a.id ≠ b.id))
    (mapping : List (Nat × Nat)) (rels : List Relationship) :
    (∀ e ∈ ents, ∃ n, lookupId (migrate_entities ents start).2 e.id = some n ∧
      ({ id := n, name := e.name, normalized_name := e.normalized_name,
         entity_type := e.entity_type,
         attributes := pyOrStr e.attributes_json "\x7b\x7d",
         first_seen_at := e.first_seen, last_seen_at := e.last_seen,
         mention_count := pyOrNat e.mention_count 1 } : PgEntityRow)
        ∈ (migrate_entities ents start).1) ∧
    ((migrate_relationships mapping rels).1.length
      + (migrate_relationships mapping rels).2 = rels.length) ∧
    (∀ out ∈ (migrate_relationships mapping rels).1,
      ∃ rel ∈ rels, lookupId mapping rel.subject_id = some out.subject_id ∧
        lookupId mapping rel.object_id = some out.object_id ∧
        out.predicate = rel.predicate ∧ out.context = rel.context ∧
        out.source_url = rel.source_url ∧ out.confidence = pyOrQ rel.confidence (4/5) ∧
        out.created_at = rel.created_at) :=
  ⟨migrate_entities_carries ents start hids,
   migrate_relationships_count mapping rels,
   migrate_relationships_out mapping rels⟩

/-- C9 witness: one mapped source relationship migrates to exactly one
destination row with zero skips. -/
theorem C9_amended_witness :
    (migrate_relationships mappingCE [relWithDate]).1.length
      + (migrate_relationships mappingCE [relWithDate]).2 = 1 :=
  (C9_amended_migration [] 0 List.Pairwise.nil mappingCE [relWithDate]).2.1

/-! ## String-normalization toolkit (claims C5 and C6) -/

theorem dropWhile_eq_self_of_head {α : Type} {p : α → Bool} {l : List α}
    (h : ∀ c, l.head? = some c → p c = false) : l.dropWhile p = l := by
  cases l with
  | nil => rfl
  | cons a t =>
    rw [List.dropWhile_cons, h a rfl]
    simp

theorem trimL_eq_self {l : List Char}
    (hh : ∀ c, l.head? = some c → pyIsWs c = false)
    (hl : ∀ c, l.getLast? = some c → pyIsWs c = false) : trimL l = l := by
  have h2 : l.reverse.dropWhile pyIsWs = l.reverse :=
    dropWhile_eq_self_of_head (fun c hc => hl c (by rwa [List.head?_reverse] at hc))
  unfold trimL
  rw [dropWhile_eq_self_of_head hh, h2, List.reverse_reverse]

theorem head_dropWhile_false {p : Char → Bool} (l : List Char) :
    ∀ c, (l.dropWhile p).head? = some c → p c = false := by
  intro c hc
  have h := List.head?_dropWhile_not p l
  rw [hc] at h
  exact h

theorem getLast_dropWhile {p : Char → Bool} (l : List Char) :
    ∀ c, (l.dropWhile p).getLast? = some c → l.getLast? = some c := by
  intro c hc
  obtain ⟨t, ht⟩ := List.dropWhile_suffix (l := l) p
  rw [← ht, List.getLast?_append, hc]
  rfl

theorem trimL_head (l : List Char) :
    ∀ c, (trimL l).head? = some c → pyIsWs c = false := by
  intro c hc
  unfold trimL at hc
  rw [List.head?_reverse] at hc
  have h2 := getLast_dropWhile ((l.dropWhile pyIsWs).reverse) c hc
  rw [List.getLast?_reverse] at h2
  exact head_dropWhile_false l c h2

theorem trimL_getLast (l : List Char) :
    ∀ c, (trimL l).getLast? = some c → pyIsWs c = false := by
  intro c hc
  unfold trimL at hc
  rw [List.getLast?_reverse] at hc
  exact head_dropWhile_false _ c hc

theorem trimL_idem (l : List Char) : trimL (trimL l) = trimL l :=
  trimL_eq_self (trimL_head l) (trimL_getLast l)

theorem trimL_subset (l : List Char) : trimL l ⊆ l := by
  intro c hc
  unfold trimL at hc
  rw [List.mem_reverse] at hc
  have h1 := (List.dropWhile_sublist _).subset hc
  rw [List.mem_reverse] at h1
  exact (List.dropWhile_sublist _).subset h1

theorem lowerChar_no_upper : ∀ p ∈ upperLowerTable, lowerChar p.2 = p.2 := by decide

theorem lowerChar_idem (c : Char) : lowerChar (lowerChar c) = lowerChar c := by
  rcases hf : upperLowerTable.find? (fun p => p.1 == c) with _ | p
  · have h1 : lowerChar c = c := by
      unfold lowerChar
      rw [hf]
    rw [h1]
    exact h1
  · have h1 : lowerChar c = p.2 := by
      unfold lowerChar
      rw [hf]
    rw [h1]
    exact lowerChar_no_upper p (List.mem_of_find?_eq_some hf)

theorem map_eq_self {α : Type} {f : α → α} :
    ∀ {l : List α}, (∀ c ∈ l, f c = c) → l.map f = l := by
  intro l
  induction l with
  | nil => intro _; rfl
  | cons a t ih =>
    intro h
    rw [List.map_cons, h a (List.mem_cons_self _ _),
        ih (fun c hc => h c (List.mem_cons_of_mem _ hc))]

theorem mem_collapseWsAux : ∀ (l : List Char) (b : Bool) (c : Char),
    c ∈ collapseWsAux b l → c ∈ l ∨ c = ' ' := by
  intro l
  induction l with
  | nil =>
    intro b c hc
    cases hc
  | cons a t ih =>
    intro b c hc
    simp only [collapseWsAux] at hc
    split at hc
    · split at hc
      · rcases ih true c hc with h | h
        · exact Or.inl (List.mem_cons_of_mem _ h)
        · exact Or.inr h
      · rcases List.mem_cons.mp hc with rfl | hc'
        · exact Or.inr rfl
        · rcases ih true c hc' with h | h
          · exact Or.inl (List.mem_cons_of_mem _ h)
          · exact Or.inr h
    · rcases List.mem_cons.mp hc with rfl | hc'
      · exact Or.inl (List.mem_cons_self _ _)
      · rcases ih false c hc' with h | h
        · exact Or.inl (List.mem_cons_of_mem _ h)
        · exact Or.inr h

theorem collapse_ws_is_space : ∀ (l : List Char) (b : Bool) (c : Char),
    c ∈ collapseWsAux b l → pyIsWs c = true → c = ' ' := by
  intro l
  induction l with
  | nil =>
    intro b c hc
    cases hc
  | cons a t ih =>
    intro b c hc hws
    simp only [collapseWsAux] at hc
    split at hc
    · split at hc
      · exact ih true c hc hws
      · rcases List.mem_cons.mp hc with rfl | hc'
        · rfl
        · exact ih true c hc' hws
    · rename_i ha
      rcases List.mem_cons.mp hc with rfl | hc'
      · exact absurd hws ha
      · exact ih false c hc' hws

theorem collapse_true_head : ∀ (l : List Char) (c : Char),
    (collapseWsAux true l).head? = some c → pyIsWs c = false := by
  intro l
  induction l with
  | nil =>
    intro c hc
    cases hc
  | cons a t ih =>
    intro c hc
    simp only [collapseWsAux, if_true] at hc
    split at hc
    · exact ih c hc
    · rename_i ha
      cases hc
      exact eq_false_of_ne_true ha

theorem collapse_true_eq_false_head (l : List Char)
    (h : ∀ c, l.head? = some c → pyIsWs c = false) :
    collapseWsAux true l = collapseWsAux false l := by
  cases l with
  | nil => rfl
  | cons a t =>
    have ha : pyIsWs a = false := h a rfl
    simp [collapseWsAux, ha]

theorem collapse_chain' : ∀ (l : List Char) (b : Bool),
    (collapseWsAux b l).Chain' (fun a b => ¬(pyIsWs a = true ∧ pyIsWs b = true)) := by
  intro l
  induction l with
  | nil =>
    intro b
    exact List.chain'_nil
  | cons a t ih =>
    intro b
    simp only [collapseWsAux]
    split
    · split
      · exact ih true
      · rw [List.chain'_cons']
        refine ⟨?_, ih true⟩
        intro y hy hcontra
        have hfalse : pyIsWs y = false := collapse_true_head t y (Option.mem_def.mp hy)
        rw [hfalse] at hcontra
        cases hcontra.2
    · rename_i ha
      rw [List.chain'_cons']
      refine ⟨?_, ih false⟩
      intro y hy hcontra
      exact ha hcontra.1

theorem collapse_eq_self : ∀ l : List Char,
    l.Chain' (fun a b => ¬(pyIsWs a = true ∧ pyIsWs b = true)) →
    (∀ c ∈ l, pyIsWs c = true → c = ' ') →
    collapseWsAux false l = l := by
  intro l
  induction l with
  | nil =>
    intro _ _
    rfl
  | cons a t ih =>
    intro hchain hsp
    have hcc := List.chain'_cons'.mp hchain
    by_cases hws : pyIsWs a = true
    · have ha : a = ' ' := hsp a (List.mem_cons_self _ _) hws
      have hthead : ∀ c, t.head? = some c → pyIsWs c = false := by
        intro c hc
        have h2 := hcc.1 c (Option.mem_def.mpr hc)
        rw [Bool.eq_false_iff]
        intro hc2
        exact h2 ⟨hws, hc2⟩
      simp only [collapseWsAux, hws, if_true]
      rw [collapse_true_eq_false_head t hthead,
          ih hcc.2 (fun c hc h => hsp c (List.mem_cons_of_mem _ hc) h), ha]
      simp
    · simp only [collapseWsAux, hws]
      rw [ih hcc.2 (fun c hc h => hsp c (List.mem_cons_of_mem _ hc) h)]
      simp

/-- Executable check that a list has no two adjacent whitespace characters
(used by decidable witnesses in place of `List.Chain'`). -/
def noWsRunB : List Char → Bool
  | [] => true
  | [_] => true
  | a :: b :: t => !(pyIsWs a && pyIsWs b) && noWsRunB (b :: t)

theorem noWsRunB_chain' : ∀ l : List Char, noWsRunB l = true →
    l.Chain' (fun a b => ¬(pyIsWs a = true ∧ pyIsWs b = true)) := by
  intro l
  induction l with
  | nil =>
    intro _
    exact List.chain'_nil
  | cons a t ih =>
    cases t with
    | nil =>
      intro _
      exact List.chain'_singleton a
    | cons b t2 =>
      intro h
      simp only [noWsRunB, Bool.and_eq_true, Bool.not_eq_eq_eq_not, Bool.not_true] at h
      rw [List.chain'_cons]
      refine ⟨?_, ih (by simpa [noWsRunB] using h.2)⟩
      intro hcontra
      rw [hcontra.1, hcontra.2] at h
      simp at h

theorem chain'_noWsRunB : ∀ l : List Char,
    l.Chain' (fun a b => ¬(pyIsWs a = true ∧ pyIsWs b = true)) →
    noWsRunB l = true := by
  intro l
  induction l with
  | nil =>
    intro _
    rfl
  | cons a t ih =>
    cases t with
    | nil =>
      intro _
      rfl
    | cons b t2 =>
      intro h
      rw [List.chain'_cons] at h
      simp only [noWsRunB, Bool.and_eq_true, Bool.not_eq_eq_eq_not, Bool.not_true]
      refine ⟨?_, by simpa [noWsRunB] using ih h.2⟩
      by_cases hb : pyIsWs b = true
      · rcases hws : pyIsWs a with _ | _
        · simp
        · exact absurd ⟨hws, hb⟩ h.1
      · simp [eq_false_of_ne_true hb]

theorem stripSuffixStep_neg {n : List Char} {suffix : String}
    (h : endsWithL n (lowerL suffix.data) = false) : stripSuffixStep n suffix = n := by
  unfold stripSuffixStep
  rw [h]
  simp

theorem stripSuffixStep_pos {n : List Char} {suffix : String}
    (h : endsWithL n (lowerL suffix.data) = true) :
    stripSuffixStep n suffix = trimL (n.take (n.length - suffix.data.length)) := by
  unfold stripSuffixStep
  rw [h]
  simp

theorem stripSuffixStep_subset (n : List Char) (suffix : String) :
    stripSuffixStep n suffix ⊆ n := by
  unfold stripSuffixStep
  split
  · intro c hc
    exact List.take_subset _ _ (trimL_subset _ hc)
  · exact fun c hc => hc

theorem foldl_stripSuffix_subset : ∀ (sufs : List String) (n : List Char),
    sufs.foldl stripSuffixStep n ⊆ n := by
  intro sufs
  induction sufs with
  | nil => intro n c hc; exact hc
  | cons s rest ih =>
    intro n c hc
    exact stripSuffixStep_subset n s (ih (stripSuffixStep n s) hc)

theorem foldl_stripSuffix_fixed : ∀ (sufs : List String) (n : List Char),
    (∀ suf ∈ sufs, endsWithL n (lowerL suf.data) = false) →
    sufs.foldl stripSuffixStep n = n := by
  intro sufs
  induction sufs with
  | nil => intro n _; rfl
  | cons s rest ih =>
    intro n h
    rw [List.foldl_cons, stripSuffixStep_neg (h s (List.mem_cons_self _ _)),
        ih n (fun suf hs => h suf (List.mem_cons_of_mem _ hs))]

/-! Properties of the image of `normalizeNameL`. -/

theorem normalizeNameL_subset (x : List Char) :
    ∀ c ∈ normalizeNameL x, c ∈ lowerL x ∨ c = ' ' := by
  intro c hc
  simp only [normalizeNameL] at hc
  have h1 := trimL_subset _ hc
  rcases mem_collapseWsAux _ false c h1 with h2 | h2
  · exact Or.inl (trimL_subset _
      (foldl_stripSuffix_subset COMPANY_SUFFIXES _ ((List.mem_filter.mp h2).1)))
  · exact Or.inr h2

theorem normalize_lower_fixed (x : List Char) :
    ∀ c ∈ normalizeNameL x, lowerChar c = c := by
  intro c hc
  rcases normalizeNameL_subset x c hc with h | h
  · rcases List.mem_map.mp h with ⟨c0, -, rfl⟩
    exact lowerChar_idem c0
  · rw [h]
    decide

theorem normalize_keep (x : List Char) :
    ∀ c ∈ normalizeNameL x, keepChar c = true := by
  intro c hc
  simp only [normalizeNameL] at hc
  have h1 := trimL_subset _ hc
  rcases mem_collapseWsAux _ false c h1 with h2 | h2
  · exact (List.mem_filter.mp h2).2
  · rw [h2]
    decide

theorem normalize_ws_space (x : List Char) :
    ∀ c ∈ normalizeNameL x, pyIsWs c = true → c = ' ' := by
  intro c hc hws
  simp only [normalizeNameL] at hc
  exact collapse_ws_is_space _ false c (trimL_subset _ hc) hws

theorem trimL_chain' {R : Char → Char → Prop} {l : List Char} (h : l.Chain' R) :
    (trimL l).Chain' R := by
  unfold trimL
  have h1 : (l.dropWhile pyIsWs).Chain' R := h.suffix (List.dropWhile_suffix _)
  have h2 : ((l.dropWhile pyIsWs).reverse).Chain' (flip R) := List.chain'_reverse.mpr h1
  have h3 := h2.suffix (List.dropWhile_suffix pyIsWs)
  exact List.chain'_reverse.mpr h3

theorem trim_collapse_chain (F : List Char) :
    (trimL (collapseWsAux false F)).Chain'
      (fun a b => ¬(pyIsWs a = true ∧ pyIsWs b = true)) :=
  trimL_chain' (collapse_chain' F false)

theorem normalize_chain' (x : List Char) :
    (normalizeNameL x).Chain' (fun a b => ¬(pyIsWs a = true ∧ pyIsWs b = true)) := by
  have hEq : normalizeNameL x = trimL (collapseWsAux false
      ((COMPANY_SUFFIXES.foldl stripSuffixStep (trimL (lowerL x))).filter keepChar)) := rfl
  rw [hEq]
  exact trim_collapse_chain _

theorem trim_collapse_noWsB (F : List Char) :
    noWsRunB (trimL (collapseWsAux false F)) = true :=
  chain'_noWsRunB _ (trimL_chain' (collapse_chain' F false))

theorem normalize_noWsRunB (x : List Char) : noWsRunB (normalizeNameL x) = true := by
  have hEq : normalizeNameL x = trimL (collapseWsAux false
      ((COMPANY_SUFFIXES.foldl stripSuffixStep (trimL (lowerL x))).filter keepChar)) := rfl
  rw [hEq]
  exact trim_collapse_noWsB _

theorem normalize_trim_fixed (x : List Char) :
    trimL (normalizeNameL x) = normalizeNameL x := by
  simp only [normalizeNameL]
  exact trimL_idem _

/-- The core fixed-point lemma: a list that is lowercase-fixed, trim-fixed,
ends in no listed suffix, contains only kept characters, has no whitespace
runs and only plain spaces as whitespace, is a fixed point of the
normalization. -/
theorem normalizeNameL_fixed {l : List Char}
    (hlow : ∀ c ∈ l, lowerChar c = c)
    (htrim : trimL l = l)
    (hsuf : ∀ suf ∈ COMPANY_SUFFIXES, endsWithL l (lowerL suf.data) = false)
    (hkeep : ∀ c ∈ l, keepChar c = true)
    (hchain : noWsRunB l = true)
    (hspace : ∀ c ∈ l, pyIsWs c = true → c = ' ') :
    normalizeNameL l = l := by
  simp only [normalizeNameL, lowerL]
  rw [map_eq_self hlow, htrim, foldl_stripSuffix_fixed _ _ hsuf,
      List.filter_eq_self.mpr hkeep, collapse_eq_self l (noWsRunB_chain' l hchain) hspace]
  exact htrim

/-! ## Claim C5 (amended): idempotence of `normalize_name` off the suffix edge -/

/-- C5 amended: `normalize_name` is idempotent on every input whose
normalized form does not itself end in one of the listed legal-entity
suffixes.  (Without that proviso idempotence fails — see the
counterexample.) -/
theorem C5_amended_idempotent_when_no_trailing_suffix (x : String)
    (hsuf : ∀ suf ∈ COMPANY_SUFFIXES,
      endsWithL (normalizeNameL x.data) (lowerL suf.data) = false) :
    normalize_name (normalize_name x) = normalize_name x := by
  have h : normalizeNameL (normalizeNameL x.data) = normalizeNameL x.data := by
    have h1 := normalize_lower_fixed x.data
    have h2 := normalize_trim_fixed x.data
    have h4 := normalize_keep x.data
    have h5 := normalize_noWsRunB x.data
    have h6 := normalize_ws_space x.data
    generalize hO : normalizeNameL x.data = O at h1 h2 h4 h5 h6 hsuf ⊢
    exact normalizeNameL_fixed h1 h2 hsuf h4 h5 h6
  have hax : ∀ y : String, normalize_name y = ⟨normalizeNameL y.data⟩ := fun _ => rfl
  rw [hax (normalize_name x), hax x]
  have hproj : ∀ l : List Char, (⟨l⟩ : String).data = l := fun _ => rfl
  rw [hproj]
  exact congrArg String.mk h

/-- C5 witness: `"meta platforms"` normalizes to itself-shaped output with no
trailing suffix, and the double application agrees with the single one. -/
theorem C5_amended_witness :
    normalize_name (normalize_name "meta platforms") = normalize_name "meta platforms" :=
  C5_amended_idempotent_when_no_trailing_suffix "meta platforms" (by decide)

/-! ## Claim C6 (amended): one linear pass can strip several stacked suffixes -/

theorem isPrefL_append_of_le : ∀ (s x y : List Char), s.length ≤ x.length →
    isPrefL s (x ++ y) = isPrefL s x := by
  intro s
  induction s with
  | nil => intro x y _; rfl
  | cons c cs ih =>
    intro x y h
    cases x with
    | nil => simp at h
    | cons d ds =>
      show (c == d && isPrefL cs (ds ++ y)) = (c == d && isPrefL cs ds)
      rw [ih ds y (by simpa using h)]

theorem endsWithL_append_of_le (w b s : List Char) (h : s.length ≤ b.length) :
    endsWithL (w ++ b) s = endsWithL b s := by
  unfold endsWithL
  rw [List.reverse_append]
  exact isPrefL_append_of_le s.reverse b.reverse w.reverse (by simpa using h)

theorem head?_append_of_ne_nil {w : List Char} (b : List Char) (hne : w ≠ []) :
    (w ++ b).head? = w.head? := by
  cases w with
  | nil => exact absurd rfl hne
  | cons a t => rfl

theorem trimL_append_lit (w lit : List Char) (hne : w ≠ [])
    (hw : trimL w = w) (c : Char) (hlast : lit.getLast? = some c)
    (hc : pyIsWs c = false) : trimL (w ++ lit) = w ++ lit := by
  apply trimL_eq_self
  · intro d hd
    rw [head?_append_of_ne_nil lit hne] at hd
    exact trimL_head w d (by rw [hw]; exact hd)
  · intro d hd
    rw [List.getLast?_append, hlast] at hd
    have hred : (some c).or w.getLast? = some c := rfl
    rw [hred] at hd
    cases hd
    exact hc

/-- The fourteen `COMPANY_SUFFIXES` entries strictly between `" Inc"` and
`" Technologies"`. -/
def SUFF_MID : List String :=
  [" Corp.", " Corp", " LLC", " Ltd.", " Ltd",
   " Corporation", " Company", " Co.", " Co", " PLC", " LP", " LLP",
   " Holdings", " Group"]

/-- C6 amended: the suffix loop makes a single linear pass in list order and
removes *every* entry matching the current name: appending the stacked
suffixes `" technologies inc"` to any fully normalized nonempty name `w`
makes `normalize_name` strip both `" Inc"` (an early list entry) and then
`" Technologies"` (a later entry) in the same call, returning `w` itself —
not merely the first matched entry, but also without restarting the pass. -/
theorem C6_amended_one_pass_multi_strip (w : List Char)
    (hlow : ∀ c ∈ w, lowerChar c = c)
    (htrim : trimL w = w)
    (hsuf : ∀ suf ∈ COMPANY_SUFFIXES, endsWithL w (lowerL suf.data) = false)
    (hkeep : ∀ c ∈ w, keepChar c = true)
    (hchain : noWsRunB w = true)
    (hspace : ∀ c ∈ w, pyIsWs c = true → c = ' ')
    (hne : w ≠ []) :
    normalize_name ⟨w ++ (" technologies inc").data⟩ = ⟨w⟩ := by
  have hax : ∀ y : String, normalize_name y = ⟨normalizeNameL y.data⟩ := fun _ => rfl
  rw [hax]
  have hproj : ∀ l : List Char, (⟨l⟩ : String).data = l := fun _ => rfl
  rw [hproj]
  refine congrArg String.mk ?_
  have hEq : normalizeNameL (w ++ (" technologies inc").data)
      = trimL (collapseWsAux false
          ((COMPANY_SUFFIXES.foldl stripSuffixStep
            (trimL (lowerL (w ++ (" technologies inc").data)))).filter keepChar)) := rfl
  rw [hEq]
  have hlw : lowerL (w ++ (" technologies inc").data)
      = w ++ (" technologies inc").data := by
    unfold lowerL
    rw [List.map_append, map_eq_self hlow,
        show (" technologies inc").data.map lowerChar = (" technologies inc").data from
          by decide]
  rw [hlw]
  have htr17 : trimL (w ++ (" technologies inc").data)
      = w ++ (" technologies inc").data :=
    trimL_append_lit w _ hne htrim 'c' (by decide) (by decide)
  rw [htr17]
  have hsplit : COMPANY_SUFFIXES
      = [" Inc."] ++ ([" Inc"] ++ (SUFF_MID ++
          ([" Technologies"] ++ [" Technology", " Systems"]))) := rfl
  rw [hsplit, List.foldl_append, List.foldl_append, List.foldl_append, List.foldl_append]
  simp only [List.foldl_cons, List.foldl_nil]
  have e1 : endsWithL (w ++ (" technologies inc").data) (lowerL (" Inc.").data) = false := by
    rw [endsWithL_append_of_le w ((" technologies inc").data) (lowerL (" Inc.").data)
      (by decide)]
    decide
  rw [stripSuffixStep_neg e1]
  have e2 : endsWithL (w ++ (" technologies inc").data) (lowerL (" Inc").data) = true := by
    rw [endsWithL_append_of_le w ((" technologies inc").data) (lowerL (" Inc").data)
      (by decide)]
    decide
  rw [stripSuffixStep_pos e2, List.length_append,
      show (" technologies inc").data.length = 17 from by decide,
      show (" Inc").data.length = 4 from by decide,
      show w.length + 17 - 4 = w.length + 13 from by omega,
      List.take_append,
      show (" technologies inc").data.take 13 = (" technologies").data from by decide]
  have htr13 : trimL (w ++ (" technologies").data) = w ++ (" technologies").data :=
    trimL_append_lit w _ hne htrim 's' (by decide) (by decide)
  rw [htr13]
  have hmid : ∀ suf ∈ SUFF_MID,
      endsWithL (w ++ (" technologies").data) (lowerL suf.data) = false := by
    have hfacts : ∀ suf ∈ SUFF_MID,
        (lowerL suf.data).length ≤ (" technologies").data.length ∧
          endsWithL ((" technologies").data) (lowerL suf.data) = false := by decide
    intro suf hm
    rw [endsWithL_append_of_le w ((" technologies").data) (lowerL suf.data)
      (hfacts suf hm).1]
    exact (hfacts suf hm).2
  rw [foldl_stripSuffix_fixed SUFF_MID _ hmid]
  have e3 : endsWithL (w ++ (" technologies").data) (lowerL (" Technologies").data)
      = true := by
    rw [endsWithL_append_of_le w ((" technologies").data) (lowerL (" Technologies").data)
      (by decide)]
    decide
  rw [stripSuffixStep_pos e3, List.length_append,
      show (" technologies").data.length = 13 from by decide,
      show (" Technologies").data.length = 13 from by decide,
      show w.length + 13 - 13 = w.length + 0 from by omega,
      List.take_append,
      show (" technologies").data.take 0 = ([] : List Char) from rfl,
      List.append_nil, htrim]
  have e4 : endsWithL w (lowerL (" Technology").data) = false :=
    hsuf " Technology" (by decide)
  have e5 : endsWithL w (lowerL (" Systems").data) = false :=
    hsuf " Systems" (by decide)
  rw [stripSuffixStep_neg e4, stripSuffixStep_neg e5, List.filter_eq_self.mpr hkeep,
      collapse_eq_self w (noWsRunB_chain' w hchain) hspace]
  exact htrim

/-- C6 amended-claim witness: for the fully normalized base `"acme"`, a
single `normalize_name` call on `"acme technologies inc"` removes both
stacked suffixes. -/
theorem C6_amended_witness :
    normalize_name ⟨("acme").data ++ (" technologies inc").data⟩ = ⟨("acme").data⟩ :=
  C6_amended_one_pass_multi_strip ("acme").data (by decide) (by decide) (by decide)
    (by decide) (by decide) (by decide) (by decide)
